import Mathlib

/-!
Verification development for the break-supervision scheduler
(`py-aufsichtsplan`).  The definitions below are a shallow embedding of
`app/services/cp_sat_solver.py`, `app/services/scheduler.py` and
`app/models.py`: pure Python functions become Lean functions, the CP-SAT
model becomes an explicit satisfaction predicate over a valuation record,
solver invocations become oracle parameters that may only return
valuations satisfying the model, and the SQLAlchemy store becomes
explicit lists — with the session's `autoflush=False` behaviour modelled
by keeping flushed rows (visible to queries) separate from pending
inserts (visible only to the in-memory `existing_counts` dict).  Python ints are `Int`/`Nat`; the float-valued greedy
sort keys (ratios, bonuses such as -0.8, which are exact decimal
constants in the source) are embedded as exact fractions (`Frac`). 
-/

namespace AufsichtsplanCP

/-- `TeacherSpec` from `cp_sat_solver.py`.  `day_periods` maps a weekday
index to the set of lesson hours on that day (a Python dict of
frozensets, embedded as an association list). -/
structure TeacherSpec where
  id : Nat
  target : Int
  prio_rank : Int := 10
  preferred_floor : Option Nat := none
  floor_weights : Option (List (Nat × Int)) := none
  day_periods : List (Nat × List Nat) := []
  availability_days : Nat := 0
  nominal_target : Int := 0
deriving Repr, DecidableEq

/-- `dict.get`: the periods recorded for a weekday (empty when the key is
absent, matching Python's falsy treatment of a missing/empty set). -/
def TeacherSpec.periodsOn (t : TeacherSpec) (day : Nat) : List Nat :=
  match t.day_periods.lookup day with
  | some ps => ps
  | none => []

/-- `TeacherSpec.has_adjacent_lesson` (cp_sat_solver.py lines 29-42). -/
def TeacherSpec.has_adjacent_lesson (t : TeacherSpec) (day_index : Nat)
    (before_period after_period : Option Nat) : Bool :=
  let periods := t.periodsOn day_index
  if periods.isEmpty then false
  else
    (match before_period with
     | some b => periods.contains b
     | none => false) ||
    (match after_period with
     | some a => periods.contains a
     | none => false)

/-- `BreakSlotSpec` from `cp_sat_solver.py`.  Dates are day numbers. -/
structure BreakSlotSpec where
  slot_id : String
  date : Nat
  day_index : Nat
  break_index : Nat
  before_period : Option Nat
  after_period : Option Nat
  needs : List (Nat × Int)
deriving Repr, DecidableEq

/-- `AssignmentDecision` from `cp_sat_solver.py`. -/
structure AssignmentDecision where
  teacher_id : Nat
  slot_id : String
  floor_id : Nat
  day_index : Nat
  date : Nat
  break_index : Nat
deriving Repr, DecidableEq

/-- The configuration handed to `BreakSupervisionSolver.__init__`, after
the normalisation done there (lines 101-106): a negative band becomes 0,
the band penalty is clamped at 0, `max_extra_duties` is clamped at 0. -/
structure SolverConfig where
  fairness_band : Option Int := some 1
  max_one_per_day : Bool := false
  band_penalty : Int := 200000
  max_extra_duties : Option Int := none
deriving Repr, DecidableEq

/-- `self.fairness_band` after `__init__`. -/
def SolverConfig.bandNorm (c : SolverConfig) : Option Int :=
  match c.fairness_band with
  | none => none
  | some b => if b ≥ 0 then some b else some 0

/-- `self.band_penalty` after `__init__`. -/
def SolverConfig.bandPenaltyNorm (c : SolverConfig) : Int :=
  max 0 c.band_penalty

/-- `self.max_extra_duties` after `__init__`. -/
def SolverConfig.extraNorm (c : SolverConfig) : Option Int :=
  match c.max_extra_duties with
  | none => none
  | some e => some (max 0 e)

/-- The solver state built by `BreakSupervisionSolver.__init__`. -/
structure SolverState where
  teachers : List TeacherSpec
  break_slots : List BreakSlotSpec
  floor_ids : List Nat
  cfg : SolverConfig
deriving Repr

/-- `_compute_eligibility` clamps every teacher's target to `max 0`
(line 131); all later uses read the clamped value. -/
def TeacherSpec.effTarget (t : TeacherSpec) : Int :=
  max 0 t.target

/-- `self.total_need` (lines 111-115). -/
def SolverState.totalNeed (S : SolverState) : Int :=
  (S.break_slots.map fun slot =>
    (slot.needs.map fun fn => max 0 fn.2).sum).sum

/-- `self.max_target` (line 116). -/
def SolverState.maxTarget (S : SolverState) : Int :=
  (S.teachers.map fun t => max 0 t.target).foldr max 0

/-- `self.total_target` (line 117). -/
def SolverState.totalTarget (S : SolverState) : Int :=
  (S.teachers.map fun t => max 0 t.target).sum

/-- `self._eligibility[(teacher_id, slot_id)]` (lines 133-139). -/
def SolverState.eligible (t : TeacherSpec) (slot : BreakSlotSpec) : Bool :=
  t.has_adjacent_lesson slot.day_index slot.before_period slot.after_period

/-- `_priority_cost` (lines 147-162). -/
def priorityCost (t : TeacherSpec) (floor_id : Nat) : Int :=
  let base : Int :=
    match t.floor_weights with
    | some ws =>
      if ws.isEmpty then
        -- an empty dict is falsy in Python, so the preference branch runs
        match t.preferred_floor with
        | none => 1
        | some pf => if pf = floor_id then 0 else 3
      else
        -- max(values, default=3) + 1; the default only applies to an
        -- empty dict, which this branch excludes
        let defaultPenalty :=
          (match ws.map (·.2) with
           | [] => (3 : Int)
           | v :: vs => vs.foldl max v) + 1
        match ws.lookup floor_id with
        | some w => w
        | none => defaultPenalty
    | none =>
      match t.preferred_floor with
      | none => 1
      | some pf => if pf = floor_id then 0 else 3
  let prio := max 0 t.prio_rank
  base * (100 + min prio 100)

/-- The keys of `decision_vars`: one boolean per (eligible teacher, slot,
floor with positive need), built by the loop at lines 196-215. -/
def SolverState.decisionKeys (S : SolverState) : List (Nat × String × Nat) :=
  S.break_slots.flatMap fun slot =>
    (slot.needs.filter fun fn => fn.2 > 0).flatMap fun fn =>
      (S.teachers.filter fun t => SolverState.eligible t slot).map fun t =>
        (t.id, slot.slot_id, fn.1)

/-- A valuation of every variable the CP-SAT model can create.  Variables
are identified the way the Python dicts key them (teacher id, slot id,
floor id, date); ids are primary keys in the store and therefore
distinct. -/
structure Sol where
  x : Nat → String → Nat → Bool
  short : String → Nat → Int
  load : Nat → Int
  devPos : Nat → Int
  devNeg : Nat → Int
  maxDev : Int
  bandUnder : Nat → Int
  bandOver : Nat → Int
  capOver : Nat → Int
  P : Int
  totalDev : Int
  totalBand : Int
  totalShort : Int
  dayLoad : Nat → Nat → Int
  dayOver : Nat → Nat → Bool
  dayExcess : Nat → Nat → Int
  dailyExcessTotal : Int

/-- `eligible_teachers` for a slot (line 197). -/
def SolverState.eligibleTeachers (S : SolverState) (slot : BreakSlotSpec) :
    List TeacherSpec :=
  S.teachers.filter fun t => SolverState.eligible t slot

def boolInt (b : Bool) : Int := if b then 1 else 0

/-- `sum(floor_vars)` for a (slot, floor) pair. -/
def xSum (S : SolverState) (sol : Sol) (slot : BreakSlotSpec) (floor_id : Nat) : Int :=
  ((S.eligibleTeachers slot).map fun t =>
    boolInt (sol.x t.id slot.slot_id floor_id)).sum

/-- The positive-need floors of a slot, in `needs` order. -/
def BreakSlotSpec.posNeeds (slot : BreakSlotSpec) : List (Nat × Int) :=
  slot.needs.filter fun fn => fn.2 > 0

/-- `sum(vars_in_slot)` for `teacher_slot_vars[(t.id, slot.slot_id)]`. -/
def slotSum (sol : Sol) (t : TeacherSpec) (slot : BreakSlotSpec) : Int :=
  (slot.posNeeds.map fun fn => boolInt (sol.x t.id slot.slot_id fn.1)).sum

/-- `sum(teacher_vars[t.id])`: every decision variable of one teacher. -/
def loadSum (S : SolverState) (sol : Sol) (t : TeacherSpec) : Int :=
  ((S.break_slots.filter fun slot => SolverState.eligible t slot).map fun slot =>
    slotSum sol t slot).sum

/-- Number of variables in `day_assignment_vars[(t.id, d)]`. -/
def dayVarsCount (S : SolverState) (t : TeacherSpec) (d : Nat) : Nat :=
  ((S.break_slots.filter fun slot =>
      slot.date = d && SolverState.eligible t slot).map fun slot =>
    slot.posNeeds.length).sum

/-- `sum(vars_for_day)` for `day_assignment_vars[(t.id, d)]`. -/
def dayLoadSum (S : SolverState) (sol : Sol) (t : TeacherSpec) (d : Nat) : Int :=
  ((S.break_slots.filter fun slot =>
      slot.date = d && SolverState.eligible t slot).map fun slot =>
    slotSum sol t slot).sum

/-- `deviation_cap = total_need + self.max_target` (line 226). -/
def SolverState.deviationCap (S : SolverState) : Int :=
  S.totalNeed + S.maxTarget

/-- `max_cost` accumulated while creating decision variables (line 214). -/
def SolverState.maxCost (S : SolverState) : Int :=
  (S.break_slots.flatMap fun slot =>
    slot.posNeeds.flatMap fun fn =>
      (S.eligibleTeachers slot).map fun t => priorityCost t fn.1).foldr max 0

/-- Whether any priority term was appended (only costs ≠ 0 are, line 212). -/
def SolverState.hasPriorityTerms (S : SolverState) : Bool :=
  S.break_slots.any fun slot =>
    slot.posNeeds.any fun fn =>
      (S.eligibleTeachers slot).any fun t => priorityCost t fn.1 ≠ 0

/-- `priority_upper` (lines 278-281). -/
def SolverState.priorityUpper (S : SolverState) : Int :=
  if S.hasPriorityTerms then
    if S.maxCost ≠ 0 then S.maxCost * S.totalNeed else S.totalNeed
  else 0

/-- `sum(priority_terms)`: the cost-weighted sum over all decision
variables (terms with cost 0 are skipped by the code but contribute 0). -/
def prioritySum (S : SolverState) (sol : Sol) : Int :=
  (S.break_slots.map fun slot =>
    (slot.posNeeds.map fun fn =>
      ((S.eligibleTeachers slot).map fun t =>
        priorityCost t fn.1 * boolInt (sol.x t.id slot.slot_id fn.1)).sum).sum).sum

/-- `sum(shortfall_terms)`. -/
def shortTermSum (S : SolverState) (sol : Sol) : Int :=
  (S.break_slots.map fun slot =>
    (slot.posNeeds.map fun fn => sol.short slot.slot_id fn.1).sum).sum

/-- `under_weight = max(1, teacher.availability_days or 1)` (line 292). -/
def underWeight (t : TeacherSpec) : Int :=
  max 1 (if t.availability_days = 0 then 1 else (t.availability_days : Int))

/-- `sum(total_dev_terms)` (lines 289-295). -/
def totalDevSum (S : SolverState) (sol : Sol) : Int :=
  (S.teachers.map fun t =>
    sol.devPos t.id * 1 + sol.devNeg t.id * underWeight t).sum

/-- `sum(band_under_terms + band_over_terms)` for one teacher: the
`under`/`over` slacks of the band branch (lines 249-269) plus the
`cap_over` slack (lines 271-276). -/
def bandTermsOf (cfg : SolverConfig) (sol : Sol) (t : TeacherSpec) : Int :=
  (match cfg.bandNorm with
   | some _ => sol.bandUnder t.id + sol.bandOver t.id
   | none =>
     match cfg.extraNorm with
     | some _ => sol.bandOver t.id
     | none => 0) +
  (match cfg.extraNorm with
   | some _ => sol.capOver t.id
   | none => 0)

/-- Whether any band slack variable exists (line 297). -/
def SolverState.hasBandTerms (S : SolverState) : Bool :=
  (S.cfg.bandNorm.isSome || S.cfg.extraNorm.isSome) && !S.teachers.isEmpty

/-- `sum(band_under_terms + band_over_terms)` over all teachers. -/
def bandTermSum (S : SolverState) (sol : Sol) : Int :=
  (S.teachers.map fun t => bandTermsOf S.cfg sol t).sum

/-- The distinct dates of the break slots (dict keys collapse repeats). -/
def SolverState.slotDates (S : SolverState) : List Nat :=
  (S.break_slots.map (·.date)).dedup

/-- `sum(day_excess_terms)` over all `day_assignment_vars` keys. -/
def dayExcessSum (S : SolverState) (sol : Sol) : Int :=
  (S.teachers.map fun t =>
    ((S.slotDates.filter fun d => dayVarsCount S t d ≥ 1).map fun d =>
      sol.dayExcess t.id d).sum).sum

/-- All constraints of the CP-SAT model built by `solve` (lines 183-343),
including the variable domain bounds from `NewIntVar`. -/
@[reducible] def SatModel (S : SolverState) (sol : Sol) : Prop :=
  -- coverage with slack (lines 196-220)
  (∀ slot ∈ S.break_slots, ∀ fn ∈ slot.needs, fn.2 > 0 →
    0 ≤ sol.short slot.slot_id fn.1 ∧ sol.short slot.slot_id fn.1 ≤ fn.2 ∧
    xSum S sol slot fn.1 + sol.short slot.slot_id fn.1 = fn.2) ∧
  -- at most one assignment per (teacher, slot) (lines 222-223)
  (∀ slot ∈ S.break_slots, ∀ t ∈ S.teachers, SolverState.eligible t slot →
    slotSum sol t slot ≤ 1) ∧
  -- max_dev domain (line 227)
  (0 ≤ sol.maxDev ∧ sol.maxDev ≤ S.deviationCap) ∧
  -- per-teacher block (lines 235-276)
  (∀ t ∈ S.teachers,
    (0 ≤ sol.load t.id ∧ sol.load t.id ≤ S.totalNeed) ∧
    sol.load t.id = loadSum S sol t ∧
    (0 ≤ sol.devPos t.id ∧ sol.devPos t.id ≤ S.totalNeed) ∧
    (0 ≤ sol.devNeg t.id ∧ sol.devNeg t.id ≤ S.maxTarget) ∧
    sol.load t.id - t.effTarget = sol.devPos t.id - sol.devNeg t.id ∧
    sol.maxDev ≥ sol.devPos t.id ∧ sol.maxDev ≥ sol.devNeg t.id ∧
    (∀ B ∈ S.cfg.bandNorm.toList,
      (0 ≤ sol.bandUnder t.id ∧ sol.bandUnder t.id ≤ S.totalNeed) ∧
      (0 ≤ sol.bandOver t.id ∧ sol.bandOver t.id ≤ S.totalNeed) ∧
      sol.load t.id + sol.bandUnder t.id ≥ max 0 (t.effTarget - B) ∧
      sol.load t.id - sol.bandOver t.id ≤ t.effTarget + B ∧
      (∀ E ∈ S.cfg.extraNorm.toList, sol.bandOver t.id ≤ E)) ∧
    (S.cfg.bandNorm = none →
      ∀ E ∈ S.cfg.extraNorm.toList,
        (0 ≤ sol.bandOver t.id ∧ sol.bandOver t.id ≤ S.totalNeed) ∧
        sol.load t.id - sol.bandOver t.id ≤ t.effTarget + E ∧
        sol.bandOver t.id ≤ E) ∧
    (∀ E ∈ S.cfg.extraNorm.toList,
      (0 ≤ sol.capOver t.id ∧ sol.capOver t.id ≤ S.totalNeed) ∧
      sol.load t.id ≤
        t.effTarget + (match S.cfg.bandNorm with | some b => b | none => 0) + E +
        sol.capOver t.id)) ∧
  -- priority cost variable (lines 278-286)
  ((0 ≤ sol.P ∧ sol.P ≤ S.priorityUpper) ∧
    sol.P = (if S.hasPriorityTerms then prioritySum S sol else 0)) ∧
  -- total_dev (lines 288-295)
  ((0 ≤ sol.totalDev ∧
      sol.totalDev ≤ (S.teachers.length : Int) * S.deviationCap * 5) ∧
    sol.totalDev = totalDevSum S sol) ∧
  -- total_band_violation (lines 297-302)
  ((0 ≤ sol.totalBand ∧
      sol.totalBand ≤
        (if S.hasBandTerms then (S.teachers.length : Int) * S.deviationCap else 0)) ∧
    sol.totalBand = (if S.hasBandTerms then bandTermSum S sol else 0)) ∧
  -- total_shortfall (lines 304-309)
  ((0 ≤ sol.totalShort ∧
      sol.totalShort ≤
        (if S.break_slots.any fun slot => !slot.posNeeds.isEmpty then S.totalNeed else 0)) ∧
    sol.totalShort =
      (if S.break_slots.any fun slot => !slot.posNeeds.isEmpty then shortTermSum S sol else 0)) ∧
  -- per-(teacher, date) block (lines 312-333)
  (∀ t ∈ S.teachers, ∀ d ∈ S.slotDates, dayVarsCount S t d ≥ 1 →
    (0 ≤ sol.dayLoad t.id d ∧ sol.dayLoad t.id d ≤ (dayVarsCount S t d : Int)) ∧
    sol.dayLoad t.id d = dayLoadSum S sol t d ∧
    sol.dayLoad t.id d ≤ 1 + boolInt (sol.dayOver t.id d) * (dayVarsCount S t d : Int) ∧
    (sol.dayOver t.id d = false → sol.dayLoad t.id d ≤ 1) ∧
    (dayVarsCount S t d ≥ 2 → sol.dayOver t.id d = true → sol.dayLoad t.id d ≥ 2) ∧
    (0 ≤ sol.dayExcess t.id d ∧
      sol.dayExcess t.id d ≤ max 0 ((dayVarsCount S t d : Int) - 1)) ∧
    (sol.dayOver t.id d = false → sol.dayExcess t.id d = 0) ∧
    (dayVarsCount S t d ≥ 2 → sol.dayOver t.id d = true →
      sol.dayExcess t.id d + 1 = sol.dayLoad t.id d) ∧
    (¬ dayVarsCount S t d ≥ 2 → sol.dayOver t.id d = true →
      sol.dayExcess t.id d = 0)) ∧
  -- daily_excess_total (lines 335-343)
  ((0 ≤ sol.dailyExcessTotal ∧
      sol.dailyExcessTotal ≤
        (if S.teachers.any fun t =>
            S.slotDates.any fun d => dayVarsCount S t d ≥ 1 then S.totalNeed else 0)) ∧
    sol.dailyExcessTotal =
      (if S.teachers.any fun t =>
          S.slotDates.any fun d => dayVarsCount S t d ≥ 1 then dayExcessSum S sol else 0))

/-- `SolverResult` (cp_sat_solver.py lines 66-79); `status_enum` and
`wall_time_seconds` are runtime artefacts of the OR-tools process and are
not modelled. -/
structure SolverResult where
  status : String
  assignments : List AssignmentDecision
  loads : List (Nat × Int)
  max_dev : Int
  priority_cost : Int
  total_dev : Int
  daily_excess : Int
  band_violation : Int
  total_shortfall : Int
  shortfalls : List ((String × Nat) × Int)
deriving Repr, DecidableEq

/-- `self.slot_lookup` (line 108): a dict comprehension, so on duplicate
slot ids the last slot wins. -/
def SolverState.lookupSlot (S : SolverState) (sid : String) : Option BreakSlotSpec :=
  S.break_slots.reverse.find? fun s => s.slot_id = sid

/-- The assignment-extraction loop over `decision_vars.items()`
(lines 411-424). -/
def extractAssignments (S : SolverState) (sol : Sol) : List AssignmentDecision :=
  S.decisionKeys.filterMap fun k =>
    if sol.x k.1 k.2.1 k.2.2 then
      match S.lookupSlot k.2.1 with
      | some slot =>
        some ⟨k.1, k.2.1, k.2.2, slot.day_index, slot.date, slot.break_index⟩
      | none => none
    else none

/-- The `shortfalls` map of the result: only strictly positive values are
kept (lines 432-436). -/
def extractShortfalls (S : SolverState) (sol : Sol) : List ((String × Nat) × Int) :=
  S.break_slots.flatMap fun slot =>
    slot.posNeeds.filterMap fun fn =>
      if sol.short slot.slot_id fn.1 > 0 then
        some ((slot.slot_id, fn.1), sol.short slot.slot_id fn.1)
      else none

/-- Reading the final `SolverResult` off a solution (lines 426-451). -/
def extractResult (S : SolverState) (sol : Sol) (statusName : String)
    (bestPriority : Int) : SolverResult where
  status := statusName
  assignments := extractAssignments S sol
  loads := S.teachers.map fun t => (t.id, sol.load t.id)
  max_dev := sol.maxDev
  priority_cost := bestPriority
  total_dev := sol.totalDev
  daily_excess := sol.dailyExcessTotal
  band_violation := sol.totalBand
  total_shortfall := sol.totalShort
  shortfalls := extractShortfalls S sol

/-- Outcome of one `solver.Solve(model)` call: `sol` is `some` exactly
when the returned status is OPTIMAL or FEASIBLE, and `name` is
`solver.StatusName(...)`. -/
structure PhaseResult where
  sol : Option Sol
  name : String

/-- The early return when no teachers exist (lines 165-181). -/
def emptyTeachersResult (S : SolverState) : SolverResult where
  status := if S.totalNeed > 0 then "INFEASIBLE" else "OPTIMAL"
  assignments := []
  loads := []
  max_dev := 0
  priority_cost := 0
  total_dev := 0
  daily_excess := 0
  band_violation := 0
  total_shortfall := S.totalNeed
  shortfalls := []

/-- The abort result when Phase 1 is neither OPTIMAL nor FEASIBLE
(lines 353-368). -/
def phase1FailResult (S : SolverState) (statusName : String) : SolverResult where
  status := statusName
  assignments := []
  loads := S.teachers.map fun t => (t.id, 0)
  max_dev := 0
  priority_cost := 0
  total_dev := 0
  daily_excess := 0
  band_violation := 0
  total_shortfall := S.totalNeed
  shortfalls := []

/-- `BreakSupervisionSolver.solve` (lines 164-451).  The three CP-SAT
invocations are oracle parameters; the phase-fallback logic (keep the
last successful solution) is the control flow of the source. -/
def solve (S : SolverState) (p1 p2 p3 : PhaseResult) : SolverResult :=
  if S.teachers.isEmpty then emptyTeachersResult S
  else
    match p1.sol with
    | none => phase1FailResult S p1.name
    | some s1 =>
      let cur := match p2.sol with | some s2 => s2 | none => s1
      let bestPriority := match p2.sol with | some s2 => s2.P | none => 0
      match p3.sol with
      | some s3 => extractResult S s3 p3.name bestPriority
      | none => extractResult S cur p2.name bestPriority

/-- The model solved in Phase 2: Phase 1's model plus the pinned
shortfall `total_shortfall == best_shortfall` (line 371). -/
@[reducible] def Phase2Model (S : SolverState) (bestShortfall : Int) (sol : Sol) : Prop :=
  SatModel S sol ∧ sol.totalShort = bestShortfall

/-- The model solved in Phase 3: Phase 2's model plus, when Phase 2
succeeded, the pinned priority `P == best_priority` (line 382). -/
@[reducible] def Phase3Model (S : SolverState) (bestShortfall : Int)
    (pinnedPriority : Option Int) (sol : Sol) : Prop :=
  Phase2Model S bestShortfall sol ∧
  ∀ p, pinnedPriority = some p → sol.P = p

/-- `weight_daily_excess` (line 391). -/
def SolverState.weightDay (S : SolverState) : Int :=
  if S.cfg.max_one_per_day then 500000 else 100

/-- `weight_band_violation` (line 392). -/
def SolverState.weightBand (S : SolverState) : Int :=
  if S.cfg.bandNorm.isSome || S.cfg.extraNorm.isSome then
    S.cfg.bandPenaltyNorm
  else 0

/-- The Phase 3 objective expression (lines 389-400). -/
def phase3Objective (S : SolverState) (sol : Sol) : Int :=
  sol.maxDev * 1000000 + sol.totalDev * 10000 +
  sol.dailyExcessTotal * S.weightDay + sol.totalBand * S.weightBand +
  sol.totalShort * 50000000

end AufsichtsplanCP

namespace AufsichtsplanGreedy

/-- `TeacherLesson` row (models.py lines 225-240); only the (weekday,
hour) pair matters for scheduling. -/
structure Lesson where
  weekday : Nat
  hour : Nat
deriving Repr, DecidableEq

/-- A `Teacher` row joined with its optional `TeacherQuota`
(models.py lines 6-27, 182-189).  `quota_target` is
`quota.target_duties` when a quota row exists. -/
structure Teacher where
  id : Nat
  exempt : Bool := false
  preferred_floor_id : Option Nat := none
  attendance_days : Option Nat := some 31
  lessons : List Lesson := []
  quota_target : Option Int := none
deriving Repr, DecidableEq

/-- The attendance bitmask computed from lessons
(models.py lines 83-96). -/
def Teacher.computedAttendanceBits (t : Teacher) : Nat :=
  t.lessons.foldl
    (fun acc l => if l.weekday ≤ 4 then acc ||| (1 <<< l.weekday) else acc) 0

/-- `Teacher.get_actual_attendance_days` (models.py lines 73-96): the
stored bitmask is honoured only when it is neither NULL, 0 nor 31;
otherwise attendance is derived from the lesson table. -/
def Teacher.getActualAttendanceDays (t : Teacher) : Nat :=
  match t.attendance_days with
  | some a =>
    if a ≠ 31 ∧ a ≠ 0 then a
    else if t.lessons.isEmpty then 0 else t.computedAttendanceBits
  | none => if t.lessons.isEmpty then 0 else t.computedAttendanceBits

/-- `Teacher.is_available_on_weekday` (models.py lines 29-34). -/
def Teacher.isAvailableOnWeekday (t : Teacher) (weekday : Nat) : Bool :=
  if weekday > 4 then false
  else (t.getActualAttendanceDays).testBit weekday

/-- The lesson hours adjacent to a break index
(models.py lines 147-159). -/
def relevantHours : Nat → List Nat
  | 1 => [1]
  | 2 => [2, 3]
  | 3 => [4, 5]
  | 4 => [6, 7]
  | _ => []

/-- `Teacher.is_available_for_supervision` (models.py lines 137-166). -/
def Teacher.isAvailableForSupervision (t : Teacher) (weekday break_index : Nat) : Bool :=
  t.lessons.any fun l =>
    l.weekday = weekday && (relevantHours break_index).contains l.hour

/-- `Floor` row (models.py lines 171-179). -/
structure Floor where
  id : Nat
  required_per_break : Option Int := some 1
  order_index : Int := 0
deriving Repr, DecidableEq

/-- `DutySlot` row (models.py lines 192-205); a date is a day number and
its weekday is `date % 7` (day 0 is a Monday). -/
structure DutySlot where
  date : Nat
  break_index : Nat
  floor_id : Nat
deriving Repr, DecidableEq

/-- An exact (unreduced) fraction with positive denominator, embedding
the float values of the greedy sort keys (all of which are exact decimal
constants or quotients of small integers in the source). -/
structure Frac where
  num : Int
  den : Nat
deriving Repr, DecidableEq

def Frac.ofNat (n : Nat) : Frac := ⟨n, 1⟩

def Frac.ofInt (i : Int) : Frac := ⟨i, 1⟩

def Frac.add (a b : Frac) : Frac :=
  ⟨a.num * b.den + b.num * a.den, a.den * b.den⟩

def Frac.mul (a b : Frac) : Frac := ⟨a.num * b.num, a.den * b.den⟩

/-- `a < b` by cross-multiplication (denominators are positive at every
construction site). -/
def Frac.blt (a b : Frac) : Bool := a.num * b.den < b.num * a.den

def Frac.beq (a b : Frac) : Bool := a.num * b.den = b.num * a.den

/-- The data `generate_assignments` works from: the stored tables plus
the per-invocation `random_bias` draw (scheduler.py line 114).  The bias
is embedded as a parameter because the source draws it from Python's
global, unseeded `random.random()`. -/
structure SchedCtx where
  teachers : List Teacher
  floors : List Floor
  start_date : Nat
  end_date : Nat
  breaks_per_day : Nat
  bias : Nat → Frac

/-- The working assignment list; `clear_assignments` has emptied the
range, so the session holds exactly the rows this run adds. -/
abbrev Asg := List (DutySlot × Nat)

/-- `eligible`: non-exempt teachers with a positive quota target
(scheduler.py lines 75-89). -/
def SchedCtx.eligiblePairs (c : SchedCtx) : List (Teacher × Int) :=
  (c.teachers.filter fun t => !t.exempt).filterMap fun t =>
    let target := t.quota_target.getD 0
    if target > 0 then some (t, target) else none

/-- The `already` query: teachers already assigned at (date, break)
(scheduler.py lines 133-139). -/
def alreadyIds (asg : Asg) (d b : Nat) : List Nat :=
  (asg.filter fun a => a.1.date = d && a.1.break_index = b).map (·.2)

/-- The `existing_breaks` query: break indices of a teacher's duties on
one date (scheduler.py lines 215-221). -/
def existingBreaks (asg : Asg) (tid d : Nat) : List Nat :=
  (asg.filter fun a => a.2 = tid && a.1.date = d).map (·.1.break_index)

/-- `existing_counts[t.id]`: the incrementally maintained duty count,
which equals the number of rows this run has inserted for the teacher. -/
def assignedCount (asg : Asg) (tid : Nat) : Nat :=
  (asg.filter fun a => a.2 = tid).length

/-- `abs(x - y)` on Python ints, for natural inputs. -/
def natDist (a b : Nat) : Nat := max a b - min a b

/-- The `days_with_duties` query: distinct dates in the planning range on
which the teacher already holds a duty (scheduler.py lines 299-306). -/
def daysWithDuties (c : SchedCtx) (asg : Asg) (tid : Nat) : Nat :=
  ((asg.filter fun a =>
      a.2 = tid && c.start_date ≤ a.1.date && a.1.date ≤ c.end_date).map
    (·.1.date)).dedup.length

/-- `available_days` (scheduler.py line 309). -/
def availableDays (t : Teacher) : Nat :=
  ((List.range 5).filter fun i => t.isAvailableOnWeekday i).length

/-- The composite sort key of the greedy picks. -/
abbrev Key := Frac × Frac × Frac × Frac × Frac

/-- Python tuple comparison `key < best_key` (lexicographic, strict). -/
def keyLt (a b : Key) : Bool :=
  if a.1.blt b.1 then true else if !(a.1.beq b.1) then false
  else if a.2.1.blt b.2.1 then true else if !(a.2.1.beq b.2.1) then false
  else if a.2.2.1.blt b.2.2.1 then true else if !(a.2.2.1.beq b.2.2.1) then false
  else if a.2.2.2.1.blt b.2.2.2.1 then true
  else if !(a.2.2.2.1.beq b.2.2.2.1) then false
  else a.2.2.2.2.blt b.2.2.2.2

/-- `min(...)` / the running-best loop of `pick_teacher`: strict
comparison keeps the earliest minimum, exactly like Python. -/
def argminBy {α κ : Type} (key : α → κ) (lt : κ → κ → Bool) :
    List α → Option α
  | [] => none
  | a :: rest =>
    some (rest.foldl (fun best x => if lt (key x) (key best) then x else best) a)

/-- A candidate entry of `pick_teacher`
(scheduler.py lines 242-244): the tuple
`(t, target, assigned, duties_today, is_preferred_floor, existing_breaks)`. -/
structure PickEntry where
  t : Teacher
  target : Int
  assigned : Nat
  dutiesToday : Nat
  isPreferred : Bool
  existingBrks : List Nat
deriving Repr, DecidableEq

/-- The first filter stage of `pick_teacher` (lines 145-177).  The
session is created with `autoflush=False`, so the `already` query sees
only the flushed rows `dbv`, while the in-memory `existing_counts` dict
reflects every insert so far (`mem`). -/
def allCandidates (c : SchedCtx) (dbv mem : Asg) (d b : Nat) :
    List (Teacher × Int) :=
  let weekday := d % 7
  let alr := alreadyIds dbv d b
  c.eligiblePairs.filter fun p =>
    !(alr.contains p.1.id) &&
    p.1.isAvailableOnWeekday weekday &&
    p.1.isAvailableForSupervision weekday b &&
    decide ((assignedCount mem p.1.id : Int) < p.2)

/-- The second filter stage (lines 211-244): drop teachers with a
consecutive break on the day or already two duties today, and build the
entry tuple.  `existing_breaks` is a session query (sees `dbv` only);
`assigned` comes from the `existing_counts` dict (`mem`). -/
def buildEntries (c : SchedCtx) (dbv mem : Asg) (d b f : Nat) : List PickEntry :=
  (allCandidates c dbv mem d b).filterMap fun p =>
    let ebs := existingBreaks dbv p.1.id d
    if ebs.any fun eb => natDist eb b = 1 then none
    else if ebs.length ≥ 2 then none
    else
      some ⟨p.1, p.2, assignedCount mem p.1.id, ebs.length,
        p.1.preferred_floor_id = some f, ebs⟩

/-- `classify` (lines 266-276). -/
def classify (f : Nat) (e : PickEntry) : Nat × Nat :=
  let prefGroup :=
    match e.t.preferred_floor_id with
    | some pf => if pf = f then 0 else 2
    | none => 1
  (prefGroup, if e.dutiesToday = 0 then 0 else 1)

/-- The composite key of the primary pick (lines 290-351);
`days_with_duties` is a session query and sees only the flushed rows. -/
def entryKey (c : SchedCtx) (dbv : Asg) (d b f : Nat) (e : PickEntry) : Key :=
  let weekday := d % 7
  let futureOptions :=
    ((List.range' (b + 1) (c.breaks_per_day - b)).filter fun fb =>
      !(e.existingBrks.any fun eb => natDist eb fb = 1) &&
      e.t.isAvailableForSupervision weekday fb).length
  let dwd := daysWithDuties c dbv e.t.id
  let ad := availableDays e.t
  let partTimeBonus : Frac :=
    if ad ≤ 2 then Frac.ofInt (-2) else if ad ≤ 3 then Frac.ofInt (-1)
    else if ad ≤ 4 then ⟨-1, 2⟩ else Frac.ofInt 0
  let dayDistributionFactor : Frac := ⟨dwd, max ad 1⟩
  let floorPreferenceBonus : Frac :=
    if e.t.preferred_floor_id = some f then ⟨-4, 5⟩ else Frac.ofInt 0
  let combined :=
    (dayDistributionFactor.add floorPreferenceBonus).add partTimeBonus
  let ratio : Frac := ⟨e.assigned, (max e.target 1).toNat⟩
  (Frac.ofNat futureOptions,
    combined,
    ratio.add ((Frac.ofNat e.dutiesToday).mul (Frac.ofNat 5)),
    Frac.ofNat e.assigned, c.bias e.t.id)

/-- The priority-matrix loop (lines 278-361): visit the (preference
group, duty group) classes in order and return the key-minimal entry of
the first non-empty class. -/
def matrixPick (entries : List PickEntry) (key : PickEntry → Key)
    (cls : PickEntry → Nat × Nat) : List (Nat × Nat) → Option PickEntry
  | [] => none
  | g :: rest =>
    match argminBy key keyLt (entries.filter fun e => cls e = g) with
    | some e => some e
    | none => matrixPick entries key cls rest

/-- `pick_teacher` (scheduler.py lines 129-363), over the flushed rows
`dbv` (session queries) and the full insert list `mem`
(`existing_counts`). -/
def pickTeacher (c : SchedCtx) (dbv mem : Asg) (d b f : Nat) : Option Teacher :=
  let entries := buildEntries c dbv mem d b f
  let entries0 := entries.filter fun e => e.dutiesToday = 0
  let entries1 := entries.filter fun e => e.dutiesToday ≠ 0
  let candidateEntries := if entries0.isEmpty then entries0 ++ entries1 else entries0
  let matrix : List (Nat × Nat) :=
    if entries0.isEmpty then [(0, 0), (0, 1), (1, 0), (1, 1), (2, 0), (2, 1)]
    else [(0, 0), (1, 0), (2, 0)]
  (matrixPick candidateEntries (entryKey c dbv d b f) (classify f) matrix).map (·.t)

/-- `pick_best` of fallbacks 1 and 2 (lines 409-415, 474-480): prefer
zero-duty candidates, then take the minimum of
`(existing_counts, teacher id)`; `existing_counts` is the in-memory
dict, i.e. counts every insert (`mem`). -/
def fbPickBest (mem : Asg) (entries : List (Teacher × Nat)) : Option Teacher :=
  let zero := entries.filter fun e => e.2 = 0
  let pool := if zero.isEmpty then entries else zero
  (argminBy
    (fun e => (Frac.ofNat (assignedCount mem e.1.id), Frac.ofNat e.1.id,
      Frac.ofNat 0, Frac.ofNat 0, Frac.ofNat 0))
    keyLt pool).map (·.1)

/-- The preference cascade shared by the fallbacks (e.g. lines 417-434):
preferred floor first, then no preference, then a conflicting
preference. -/
def prefCascade {α β : Type} (pref : α → Option Nat) (f : Nat)
    (pick : List α → Option β) (candidates : List α) : Option β :=
  match pick (candidates.filter fun e => pref e = some f) with
  | some e => some e
  | none =>
    match pick (candidates.filter fun e => pref e = none) with
    | some e => some e
    | none =>
      pick (candidates.filter fun e => decide (pref e ≠ none) && decide (pref e ≠ some f))

/-- `pick_teacher_fallback_1` (lines 365-434): keeps target, daily limit
and the consecutive-break rule, but drops the composite ranking.
Session queries (`already`, `existing_breaks`) see `dbv`; the target
check reads the `existing_counts` dict (`mem`). -/
def pickTeacherFallback1 (c : SchedCtx) (dbv mem : Asg) (d b f : Nat) :
    Option Teacher :=
  let weekday := d % 7
  let alr := alreadyIds dbv d b
  let candidates : List (Teacher × Nat) := c.eligiblePairs.filterMap fun p =>
    if alr.contains p.1.id then none
    else if decide (p.2 ≤ (assignedCount mem p.1.id : Int)) then none
    else if !p.1.isAvailableOnWeekday weekday then none
    else if !p.1.isAvailableForSupervision weekday b then none
    else
      let ebs := existingBreaks dbv p.1.id d
      if ebs.length ≥ 2 then none
      else if ebs.any fun eb => natDist eb b = 1 then none
      else some (p.1, ebs.length)
  prefCascade (fun e => e.1.preferred_floor_id) f (fbPickBest mem) candidates

/-- `pick_teacher_fallback_2` (lines 436-499): like fallback 1 but the
two-duties-per-day limit is dropped; the consecutive-break rule stays
(checked, as in the code, against the flushed rows only). -/
def pickTeacherFallback2 (c : SchedCtx) (dbv mem : Asg) (d b f : Nat) :
    Option Teacher :=
  let weekday := d % 7
  let alr := alreadyIds dbv d b
  let candidates : List (Teacher × Nat) := c.eligiblePairs.filterMap fun p =>
    if alr.contains p.1.id then none
    else if decide (p.2 ≤ (assignedCount mem p.1.id : Int)) then none
    else if !p.1.isAvailableOnWeekday weekday then none
    else if !p.1.isAvailableForSupervision weekday b then none
    else
      let ebs := existingBreaks dbv p.1.id d
      if ebs.any fun eb => natDist eb b = 1 then none
      else some (p.1, ebs.length)
  prefCascade (fun e => e.1.preferred_floor_id) f (fbPickBest mem) candidates

/-- The sort key of fallback 3's `pick_best` (lines 544-554);
`existing_counts` is the in-memory dict (`mem`). -/
def fb3Key (mem : Asg) (e : Teacher × Nat × Nat × Int) : Key :=
  let belowTargetFlag : Frac :=
    if e.2.2.2 ≠ 0 ∧ (e.2.2.1 : Int) < e.2.2.2 then Frac.ofNat 0
    else Frac.ofNat 1
  let ratio : Frac :=
    if e.2.2.2 ≠ 0 then ⟨e.2.2.1, (max e.2.2.2 1).toNat⟩
    else Frac.ofNat e.2.2.1
  (belowTargetFlag, ratio, Frac.ofNat e.2.1,
    Frac.ofNat (assignedCount mem e.1.id), Frac.ofNat e.1.id)

/-- `pick_best` of fallback 3 (lines 538-557). -/
def fb3PickBest (mem : Asg) (entries : List (Teacher × Nat × Nat × Int)) :
    Option Teacher :=
  let zero := entries.filter fun e => e.2.1 = 0
  let pool := if zero.isEmpty then entries else zero
  (argminBy (fb3Key mem) keyLt pool).map (·.1)

/-- `pick_teacher_fallback_3` (lines 501-588): ignores targets and daily
limits; only availability, lesson adjacency and the consecutive-break
rule remain — and the latter is a session query, so it sees only the
flushed rows `dbv`, not inserts pending from the same fallback pass. -/
def pickTeacherFallback3 (c : SchedCtx) (dbv mem : Asg) (d b f : Nat) :
    Option Teacher :=
  let weekday := d % 7
  let alr := alreadyIds dbv d b
  let candidates : List (Teacher × Nat × Nat × Int) :=
    c.eligiblePairs.filterMap fun p =>
      if alr.contains p.1.id then none
      else if !p.1.isAvailableOnWeekday weekday then none
      else if !p.1.isAvailableForSupervision weekday b then none
      else
        let ebs := existingBreaks dbv p.1.id d
        if ebs.any fun eb => natDist eb b = 1 then none
        else some (p.1, ebs.length, assignedCount mem p.1.id, p.2)
  prefCascade (fun e => e.1.preferred_floor_id) f (fb3PickBest mem) candidates

/-- `floor_required` (scheduler.py lines 590-592) with the
`floor_required.get(slot.floor_id, 1)` default of line 607:
`max(1, f.required_per_break or 1)`. -/
def floorRequired (c : SchedCtx) (fid : Nat) : Int :=
  match c.floors.find? fun fl => fl.id = fid with
  | some fl =>
    max 1 (match fl.required_per_break with
           | none => 1
           | some v => if v = 0 then 1 else v)
  | none => 1

/-- Insert `x` into an already sorted list, after every element not
strictly greater: the stable insertion of Python's `sorted`. -/
def insertSorted {α : Type} (lt : α → α → Bool) (x : α) : List α → List α
  | [] => [x]
  | y :: ys => if lt y x then y :: insertSorted lt x ys else x :: y :: ys

/-- Stable sort by a strict comparison, modelling Python's `sorted`. -/
def sortBy {α : Type} (lt : α → α → Bool) : List α → List α
  | [] => []
  | x :: xs => insertSorted lt x (sortBy lt xs)

/-- The chronological slot order of line 596:
`(slot.date, slot.break_index, slot.floor_id)`, as a strict
comparison. -/
def slotLt (a b : DutySlot) : Bool :=
  if a.date < b.date then true else if b.date < a.date then false
  else if a.break_index < b.break_index then true
  else if b.break_index < a.break_index then false
  else a.floor_id < b.floor_id

/-- The inner `for _ in range(needed)` loop (lines 609-616): place one
teacher per required head until the primary pick fails.  `db.add`ed rows
stay pending (`autoflush=False`): the picks query the flushed rows `dbv`
while `existing_counts` reflects `dbv ++ pending`.  (The model records
every attempted insert; in the store a duplicate (slot, teacher) pair
would violate the unique constraint at the flush.) -/
def fillSlot (c : SchedCtx) (slot : DutySlot) : Nat → Asg → Asg → Asg × Bool
  | 0, _, pending => (pending, true)
  | n + 1, dbv, pending =>
    match pickTeacher c dbv (dbv ++ pending) slot.date slot.break_index
        slot.floor_id with
    | none => (pending, false)
    | some t => fillSlot c slot n dbv (pending ++ [(slot, t.id)])

/-- One step of the main scheduling loop (lines 601-617): the
`current_assigned` count queries the flushed rows, the slot's inserts
accumulate unflushed, and the `db.flush()` of line 617 appends them to
the visible state at the end of the slot. -/
def mainStep (c : SchedCtx) (st : Asg × List DutySlot) (slot : DutySlot) :
    Asg × List DutySlot :=
  let currentAssigned := (st.1.filter fun a => a.1 = slot).length
  let needed := (max 0 (floorRequired c slot.floor_id - currentAssigned)).toNat
  match fillSlot c slot needed st.1 [] with
  | (pending, true) => (st.1 ++ pending, st.2)
  | (pending, false) => (st.1 ++ pending, st.2 ++ [slot])

/-- The main chronological pass (lines 594-617). -/
def mainPass (c : SchedCtx) (slots : List DutySlot) : Asg × List DutySlot :=
  (sortBy slotLt slots).foldl (mainStep c) (([] : Asg), ([] : List DutySlot))

/-- One fallback pass (lines 624-630, 636-642, 648-654): try the given
pick on every still-unassigned slot, keeping the slots that stay open.
The session is flushed only after the whole pass (lines 632, 644, 656),
so every session query inside the pass sees the pass-start state `st.1`
and none of the pass's own pending inserts; only the `existing_counts`
dict sees them. -/
def fallbackPass (pick : SchedCtx → Asg → Asg → Nat → Nat → Nat → Option Teacher)
    (c : SchedCtx) (st : Asg × List DutySlot) : Asg × List DutySlot :=
  let res := st.2.foldl
    (fun acc slot =>
      match pick c st.1 (st.1 ++ acc.1) slot.date slot.break_index
          slot.floor_id with
      | some t => (acc.1 ++ [(slot, t.id)], acc.2)
      | none => (acc.1, acc.2 ++ [slot]))
    (([] : Asg), ([] : List DutySlot))
  (st.1 ++ res.1, res.2)

/-- `generate_assignments` after the clear (scheduler.py lines 594-658):
the main chronological pass followed by the three fallback passes. -/
def generateAssignments (c : SchedCtx) (slots : List DutySlot) : Asg :=
  let st0 := mainPass c slots
  let st1 := fallbackPass pickTeacherFallback1 c st0
  let st2 := fallbackPass pickTeacherFallback2 c st1
  (fallbackPass pickTeacherFallback3 c st2).1

/-- `ensure_slots` (scheduler.py lines 26-51): weekday dates of the range
× break indices 1..breaks_per_day × floors ordered by id. -/
def ensureSlots (c : SchedCtx) : List DutySlot :=
  ((List.range' c.start_date (c.end_date + 1 - c.start_date)).filter
    fun d => d % 7 < 5).flatMap fun d =>
    (List.range' 1 c.breaks_per_day).flatMap fun b =>
      (sortBy (fun x y => x.id < y.id) c.floors).map fun fl =>
        ⟨d, b, fl.id⟩

/-- The whole scheduler invocation for a range (lines 66-73 onward):
materialise the slots, then run the greedy over the cleared range. -/
def runScheduler (c : SchedCtx) : Asg :=
  generateAssignments c (ensureSlots c)

/-- A stored `DutySlot` row as `clear_assignments` sees it. -/
structure StoredSlot where
  id : Nat
  date : Nat
deriving Repr, DecidableEq

/-- A stored `Assignment` row. -/
structure StoredAssignment where
  duty_slot_id : Nat
  teacher_id : Nat
deriving Repr, DecidableEq

/-- The relevant part of the relational store. -/
structure Store where
  duty_slots : List StoredSlot
  assignments : List StoredAssignment
deriving Repr, DecidableEq

/-- The `slot_ids` query of `clear_assignments`
(scheduler.py lines 55-60). -/
def slotIdsInRange (st : Store) (s e : Nat) : List Nat :=
  (st.duty_slots.filter fun sl => s ≤ sl.date && sl.date ≤ e).map (·.id)

/-- The bulk delete of line 62. -/
def deleteRange (st : Store) (s e : Nat) : Store :=
  { st with
    assignments := st.assignments.filter fun a =>
      !((slotIdsInRange st s e).contains a.duty_slot_id) }

/-- `clear_assignments` (scheduler.py lines 54-63) over a fallible
store: the function body contains no retry loop and no exception
handler, so it makes exactly one attempt, and a transient store-lock
failure on that attempt (`locked 1`) propagates as a failure. -/
def clearAssignments (locked : Nat → Bool) (st : Store) (s e : Nat) :
    Option Store :=
  if locked 1 then none else some (deleteRange st s e)

/-- Modelled from the spec: the claimed clear-assignments behaviour of
spec §4.1 — "Retries up to 5 times on transient store-lock failures with
linear backoff (100ms × attempt). Fails only if all attempts fail." —
which is absent from `scheduler.py`.  `locked k` tells whether attempt
`k` hits a lock. -/
def clearAssignmentsSpec (locked : Nat → Bool) (st : Store) (s e : Nat) :
    Option Store :=
  if [1, 2, 3, 4, 5].all locked then none else some (deleteRange st s e)

end AufsichtsplanGreedy

namespace AufsichtsplanCP

/-- Concrete scenario (spec §8 S1): teacher 1 has no lessons, teacher 2
has a Monday lesson in hour 2; one Monday slot for break 2 (periods 2/3)
needing one head on floor 1. -/
def tNoLessons : TeacherSpec := { id := 1, target := 1 }

def tMonday : TeacherSpec := { id := 2, target := 1, day_periods := [(0, [2])] }

def slotMonB2 : BreakSlotSpec :=
  { slot_id := "s1", date := 0, day_index := 0, break_index := 2,
    before_period := some 2, after_period := some 3, needs := [(1, 1)] }

def stateS1 : SolverState :=
  { teachers := [tNoLessons, tMonday], break_slots := [slotMonB2],
    floor_ids := [1], cfg := {} }

/-- The (unique optimal) valuation for `stateS1`: teacher 2 covers the
slot. -/
def solS1 : Sol where
  x := fun tid sid fid => tid == 2 && sid == "s1" && fid == 1
  short := fun _ _ => 0
  load := fun tid => if tid == 2 then 1 else 0
  devPos := fun _ => 0
  devNeg := fun tid => if tid == 1 then 1 else 0
  maxDev := 1
  bandUnder := fun tid => if tid == 1 then 1 else 0
  bandOver := fun _ => 0
  capOver := fun _ => 0
  P := 110
  totalDev := 1
  totalBand := 1
  totalShort := 0
  dayLoad := fun tid _ => if tid == 2 then 1 else 0
  dayOver := fun _ _ => false
  dayExcess := fun _ _ => 0
  dailyExcessTotal := 0

end AufsichtsplanCP

namespace AufsichtsplanGreedy

/-- The guarantees every pick stage gives about a returned teacher: it
is one of the eligible pairs, it is present on the slot's weekday, it
has an adjacent lesson for the break, and none of its duties *visible to
the session queries* (the flushed rows `dbv`) on the date sits on a
neighbouring break index. -/
def PickSound (c : SchedCtx) (dbv : Asg) (d b : Nat) (t : Teacher) : Prop :=
  (∃ p ∈ c.eligiblePairs, p.1 = t) ∧
  t.isAvailableOnWeekday (d % 7) = true ∧
  t.isAvailableForSupervision (d % 7) b = true ∧
  ∀ eb ∈ existingBreaks dbv t.id d, natDist eb b ≠ 1

/-- The consecutive-break invariant of the final plan: no teacher holds
two duties on one date whose break indices differ by exactly 1. -/
@[reducible] def NoConsec (asg : Asg) : Prop :=
  ∀ a1 ∈ asg, ∀ a2 ∈ asg, a1.2 = a2.2 → a1.1.date = a2.1.date →
    natDist a1.1.break_index a2.1.break_index ≠ 1

/-- Every row of the plan names an eligible teacher who is present on
the duty's weekday and has an adjacent lesson for its break. -/
def AssignedSound (c : SchedCtx) (asg : Asg) : Prop :=
  ∀ a ∈ asg, ∃ p ∈ c.eligiblePairs, p.1.id = a.2 ∧
    p.1.isAvailableOnWeekday (a.1.date % 7) = true ∧
    p.1.isAvailableForSupervision (a.1.date % 7) a.1.break_index = true

/-- The total demand of a greedy invocation: one `required_per_break`
head count per materialised slot. -/
def greedyTotalNeed (c : SchedCtx) : Int :=
  ((ensureSlots c).map fun slot => floorRequired c slot.floor_id).sum

/-- Two interchangeable teachers: Monday lesson in hour 1, quota 1. -/
def tg1 : Teacher := { id := 1, lessons := [⟨0, 1⟩], quota_target := some 1 }

def tg2 : Teacher := { id := 2, lessons := [⟨0, 1⟩], quota_target := some 1 }

/-- A teacher with the full-week default bitmask 31 and no lessons. -/
def tgIdle : Teacher := { id := 3, attendance_days := some 31, quota_target := some 1 }

def floorG : Floor := { id := 1 }

/-- One Monday, one break, one floor needing one head; teachers 1 and 2
are interchangeable except for their drawn random bias. -/
def ctxG (bias : Nat → Frac) : SchedCtx :=
  { teachers := [tg1, tg2], floors := [floorG], start_date := 0,
    end_date := 0, breaks_per_day := 1, bias := bias }

/-- A bias draw favouring teacher 1. -/
def biasA : Nat → Frac := fun id => if id = 1 then Frac.ofNat 0 else Frac.ofNat 1

/-- A bias draw favouring teacher 2. -/
def biasB : Nat → Frac := fun id => if id = 1 then Frac.ofNat 1 else Frac.ofNat 0

/-- Scenario for the attendance claim: the idle teacher (bitmask 31, no
lessons) is stored alongside teacher 1. -/
def ctxIdle : SchedCtx :=
  { teachers := [tg1, tgIdle], floors := [floorG], start_date := 0,
    end_date := 0, breaks_per_day := 1, bias := fun _ => Frac.ofNat 0 }

/-- A floor demanding two heads per break. -/
def floorG2 : Floor := { id := 1, required_per_break := some 2 }

/-- Scenario for the target-rebalancing claim: one teacher with nominal
target 1 against a total demand of 2. -/
def ctx5 : SchedCtx :=
  { teachers := [tg1], floors := [floorG2], start_date := 0,
    end_date := 0, breaks_per_day := 1, bias := fun _ => Frac.ofNat 0 }

/-- The consecutive-break failing scenario: one teacher with target 1
and lessons Monday hour 2, Tuesday hour 3 and Tuesday hour 4.  The main
pass fills Monday break 2 (target reached); the Tuesday breaks 2 and 3
reach fallback 3, which ignores targets, and its consecutive-break
query cannot see the pass's own pending inserts. -/
def tC9 : Teacher :=
  { id := 1, lessons := [⟨0, 2⟩, ⟨1, 3⟩, ⟨1, 4⟩], quota_target := some 1 }

def ctxC9 : SchedCtx :=
  { teachers := [tC9], floors := [floorG], start_date := 0,
    end_date := 1, breaks_per_day := 4, bias := fun _ => Frac.ofNat 0 }

/-- Concrete store for the clear-assignments claim: slots 1 (day 5,
inside the range [0, 10]) and 2 (day 20, outside), one assignment on
each. -/
def store0 : Store :=
  { duty_slots := [⟨1, 5⟩, ⟨2, 20⟩],
    assignments := [⟨1, 7⟩, ⟨2, 7⟩] }

end AufsichtsplanGreedy

namespace AufsichtsplanCP

/-- Counter-scenario for the band claim: one teacher with target 2 and
no lessons, one slot needing 2 heads, fairness band 0 and
max_extra_duties 0. -/
def tC4 : TeacherSpec := { id := 1, target := 2 }

def slotC4 : BreakSlotSpec :=
  { slot_id := "s1", date := 0, day_index := 0, break_index := 2,
    before_period := some 2, after_period := some 3, needs := [(1, 2)] }

def stateC4 : SolverState :=
  { teachers := [tC4], break_slots := [slotC4], floor_ids := [1],
    cfg := { fairness_band := some 0, max_extra_duties := some 0 } }

/-- The unique (hence optimal) valuation for `stateC4`: the teacher is
eligible for nothing, so the load is 0 and both heads stay uncovered.
Its band_under slack is 2, i.e. the load sits 2 below target − band. -/
def solC4 : Sol where
  x := fun _ _ _ => false
  short := fun _ _ => 2
  load := fun _ => 0
  devPos := fun _ => 0
  devNeg := fun _ => 2
  maxDev := 2
  bandUnder := fun _ => 2
  bandOver := fun _ => 0
  capOver := fun _ => 0
  P := 0
  totalDev := 2
  totalBand := 2
  totalShort := 2
  dayLoad := fun _ _ => 0
  dayOver := fun _ _ => false
  dayExcess := fun _ _ => 0
  dailyExcessTotal := 0

end AufsichtsplanCP

namespace AufsichtsplanCP

/-- The number of assignments a result carries on one (slot, floor)
pair. -/
def countOnFloor (l : List AssignmentDecision) (sid : String) (fid : Nat) : Nat :=
  l.countP fun a => a.slot_id == sid && a.floor_id == fid

end AufsichtsplanCP

namespace AufsichtsplanCP

/-- Membership characterisation of the decision-variable keys: a key
exists exactly for an eligible teacher, a stored slot and a floor with
positive need. -/
theorem mem_decisionKeys (S : SolverState) (tid : Nat) (sid : String) (fid : Nat) :
    (tid, sid, fid) ∈ S.decisionKeys ↔
      ∃ t ∈ S.teachers, ∃ slot ∈ S.break_slots, ∃ need : Int,
        tid = t.id ∧ sid = slot.slot_id ∧ (fid, need) ∈ slot.needs ∧ need > 0 ∧
        SolverState.eligible t slot = true := by
  unfold SolverState.decisionKeys
  simp only [List.mem_flatMap, List.mem_filter, List.mem_map, Prod.mk.injEq]
  constructor
  · rintro ⟨slot, hslot, fn, ⟨hfn, hpos⟩, t, ⟨ht, helig⟩, h1, h2, h3⟩
    exact ⟨t, ht, slot, hslot, fn.2, h1.symm, h2.symm, by simpa [← h3] using hfn,
      by exact_mod_cast of_decide_eq_true hpos, helig⟩
  · rintro ⟨t, ht, slot, hslot, need, h1, h2, hfn, hpos, helig⟩
    exact ⟨slot, hslot, (fid, need), ⟨hfn, decide_eq_true hpos⟩, t, ⟨ht, helig⟩,
      h1.symm, h2.symm, rfl⟩

/-- Every extracted assignment's key is a decision-variable key. -/
theorem extract_key_mem (S : SolverState) (sol : Sol) (a : AssignmentDecision)
    (ha : a ∈ extractAssignments S sol) :
    (a.teacher_id, a.slot_id, a.floor_id) ∈ S.decisionKeys := by
  unfold extractAssignments at ha
  rcases List.mem_filterMap.mp ha with ⟨k, hk, hf⟩
  have : a.teacher_id = k.1 ∧ a.slot_id = k.2.1 ∧ a.floor_id = k.2.2 := by
    by_cases hx : sol.x k.1 k.2.1 k.2.2
    · simp only [hx, if_true] at hf
      cases hlk : S.lookupSlot k.2.1 with
      | none => rw [hlk] at hf; cases hf
      | some slot =>
        rw [hlk] at hf
        cases hf
        exact ⟨rfl, rfl, rfl⟩
    · simp [hx] at hf
  rcases this with ⟨h1, h2, h3⟩
  rw [h1, h2, h3]
  exact hk

end AufsichtsplanCP

namespace AufsichtsplanCP

/-- C1: every assignment produced by the solver respects lesson
adjacency — each extracted `AssignmentDecision` names a stored teacher
and slot such that the teacher's `day_periods[slot.day_index]` contains
`slot.before_period` or `slot.after_period`; and a decision variable is
created for a (teacher, slot, floor) key exactly when the slot is
stored, the floor's need is positive and the teacher has such an
adjacent lesson, so an ineligible teacher never receives an assignment
for the slot. -/
theorem C1_solver_respects_adjacency (S : SolverState) (sol : Sol) :
    (∀ a ∈ extractAssignments S sol,
      ∃ t ∈ S.teachers, ∃ slot ∈ S.break_slots,
        a.teacher_id = t.id ∧ a.slot_id = slot.slot_id ∧
        t.has_adjacent_lesson slot.day_index slot.before_period
          slot.after_period = true) ∧
    (∀ tid sid fid, (tid, sid, fid) ∈ S.decisionKeys ↔
      ∃ t ∈ S.teachers, ∃ slot ∈ S.break_slots, ∃ need : Int,
        tid = t.id ∧ sid = slot.slot_id ∧ (fid, need) ∈ slot.needs ∧ need > 0 ∧
        t.has_adjacent_lesson slot.day_index slot.before_period
          slot.after_period = true) := by
  constructor
  · intro a ha
    have hkey := extract_key_mem S sol a ha
    rcases (mem_decisionKeys S a.teacher_id a.slot_id a.floor_id).mp hkey with
      ⟨t, ht, slot, hslot, need, h1, h2, _, _, helig⟩
    exact ⟨t, ht, slot, hslot, h1, h2, helig⟩
  · intro tid sid fid
    exact mem_decisionKeys S tid sid fid

/-- Witness for C1 at the concrete scenario `stateS1`: the sole
extracted assignment is teacher 2 on slot "s1", and teacher 2 indeed has
the adjacent Monday lesson. -/
theorem C1_solver_respects_adjacency_witness :
    ∃ t ∈ stateS1.teachers, ∃ slot ∈ stateS1.break_slots,
      (⟨2, "s1", 1, 0, 0, 2⟩ : AssignmentDecision).teacher_id = t.id ∧
      (⟨2, "s1", 1, 0, 0, 2⟩ : AssignmentDecision).slot_id = slot.slot_id ∧
      t.has_adjacent_lesson slot.day_index slot.before_period
        slot.after_period = true :=
  (C1_solver_respects_adjacency stateS1 solS1).1 ⟨2, "s1", 1, 0, 0, 2⟩ (by decide)

end AufsichtsplanCP

namespace AufsichtsplanCP

theorem countP_filterMap' {α β : Type} (f : α → Option β) (p : β → Bool)
    (l : List α) :
    (l.filterMap f).countP p = l.countP fun a => ((f a).map p).getD false := by
  induction l with
  | nil => rfl
  | cons a l ih =>
    cases h : f a with
    | none => simp [List.filterMap_cons, h, List.countP_cons, ih]
    | some b => simp [List.filterMap_cons, h, List.countP_cons, ih]

theorem countP_toInt {α : Type} (p : α → Bool) (l : List α) :
    ((l.countP p : Nat) : Int) = (l.map fun a => boolInt (p a)).sum := by
  induction l with
  | nil => rfl
  | cons a l ih =>
    by_cases h : p a
    · simp [List.countP_cons, h, boolInt, ih, add_comm]
    · simp [List.countP_cons, h, boolInt, ih]

theorem lookupSlot_isSome (S : SolverState) (slot : BreakSlotSpec)
    (h : slot ∈ S.break_slots) : (S.lookupSlot slot.slot_id).isSome := by
  unfold SolverState.lookupSlot
  rw [List.find?_isSome]
  exact ⟨slot, List.mem_reverse.mpr h, by simp⟩

end AufsichtsplanCP

namespace AufsichtsplanCP

theorem keys_lookup_isSome (S : SolverState) :
    ∀ k ∈ S.decisionKeys, (S.lookupSlot k.2.1).isSome := by
  rintro ⟨tid, sid, fid⟩ hk
  obtain ⟨t, ht, slot, hslot, need, h1, h2, _⟩ :=
    (mem_decisionKeys S tid sid fid).mp hk
  subst h2
  exact lookupSlot_isSome S slot hslot

theorem countOnFloor_extract (S : SolverState) (sol : Sol) (sid : String)
    (fid : Nat) :
    ((countOnFloor (extractAssignments S sol) sid fid : Nat) : Int)
      = (S.break_slots.map fun slot =>
          (slot.posNeeds.map fun fn =>
            if slot.slot_id = sid ∧ fn.1 = fid then xSum S sol slot fn.1
            else 0).sum).sum := by
  unfold countOnFloor extractAssignments
  rw [countP_filterMap']
  rw [List.countP_congr (q := fun k : Nat × String × Nat =>
    k.2.1 == sid && k.2.2 == fid && sol.x k.1 k.2.1 k.2.2) ?congr]
  case congr =>
    intro k hk
    cases hx : sol.x k.1 k.2.1 k.2.2 with
    | false => simp [hx]
    | true =>
      obtain ⟨slot', hs⟩ := Option.isSome_iff_exists.mp (keys_lookup_isSome S k hk)
      simp [hx, hs, Bool.and_comm]
  unfold SolverState.decisionKeys
  rw [List.countP_flatMap, Nat.cast_list_sum, List.map_map]
  refine congrArg List.sum (List.map_congr_left ?_)
  intro slot _
  simp only [Function.comp_apply]
  rw [List.countP_flatMap, Nat.cast_list_sum, List.map_map]
  refine congrArg List.sum (List.map_congr_left ?_)
  intro fn hfn
  simp only [Function.comp_apply]
  rw [List.countP_map]
  by_cases hc : slot.slot_id = sid ∧ fn.1 = fid
  · obtain ⟨h1, h2⟩ := hc
    subst h1; subst h2
    rw [if_pos ⟨rfl, rfl⟩]
    unfold xSum SolverState.eligibleTeachers
    rw [← countP_toInt]
    congr 1
    refine List.countP_congr ?_
    intro t _
    simp [Function.comp]
  · rw [if_neg hc]
    have : List.countP
        ((fun k : Nat × String × Nat =>
          k.2.1 == sid && k.2.2 == fid && sol.x k.1 k.2.1 k.2.2) ∘
          fun t => (t.id, slot.slot_id, fn.1))
        (S.teachers.filter fun t => SolverState.eligible t slot) = 0 := by
      rw [List.countP_eq_zero]
      intro t _
      simp only [Function.comp_apply, Bool.and_eq_true, beq_iff_eq]
      rintro ⟨⟨ha, hb⟩, -⟩
      exact hc ⟨ha, hb⟩
    rw [this]
    rfl

end AufsichtsplanCP

namespace AufsichtsplanCP

theorem inner_sum_zero (S : SolverState) (sol : Sol) (sid : String) (fid : Nat)
    (slot' : BreakSlotSpec) (h : slot'.slot_id ≠ sid) :
    (slot'.posNeeds.map fun fn =>
      if slot'.slot_id = sid ∧ fn.1 = fid then xSum S sol slot' fn.1
      else 0).sum = 0 := by
  apply List.sum_eq_zero
  intro x hx
  rcases List.mem_map.mp hx with ⟨fn, _, rfl⟩
  exact if_neg fun hc => h hc.1

theorem countOnFloor_eq_xSum (S : SolverState) (sol : Sol)
    (slot : BreakSlotSpec) (fid : Nat) (need : Int)
    (hids : (S.break_slots.map (·.slot_id)).Nodup)
    (hfl : (slot.needs.map Prod.fst).Nodup)
    (hslot : slot ∈ S.break_slots) (hneed : (fid, need) ∈ slot.needs)
    (hpos : need > 0) :
    ((countOnFloor (extractAssignments S sol) slot.slot_id fid : Nat) : Int)
      = xSum S sol slot fid := by
  rw [countOnFloor_extract]
  obtain ⟨l1, l2, hdecomp⟩ := List.append_of_mem hslot
  rw [hdecomp] at hids ⊢
  rw [List.map_append, List.map_cons, List.sum_append, List.sum_cons]
  have hnotin : ∀ slot' ∈ l1 ++ l2, slot'.slot_id ≠ slot.slot_id := by
    intro slot' hmem heq
    rw [List.map_append, List.map_cons] at hids
    rcases List.mem_append.mp hmem with h1 | h2
    · have := (List.nodup_append.mp hids).2.2
      exact this (List.mem_map_of_mem _ h1) (by simp [heq])
    · have hmm : slot'.slot_id ∈ l2.map (·.slot_id) :=
        List.mem_map_of_mem _ h2
      rw [heq] at hmm
      exact (List.nodup_cons.mp (List.nodup_append.mp hids).2.1).1 hmm
  have hz1 : (l1.map fun slot' =>
      (slot'.posNeeds.map fun fn =>
        if slot'.slot_id = slot.slot_id ∧ fn.1 = fid then xSum S sol slot' fn.1
        else 0).sum).sum = 0 := by
    apply List.sum_eq_zero
    intro x hx
    rcases List.mem_map.mp hx with ⟨slot', hmem, rfl⟩
    exact inner_sum_zero S sol _ fid slot'
      (hnotin slot' (List.mem_append.mpr (Or.inl hmem)))
  have hz2 : (l2.map fun slot' =>
      (slot'.posNeeds.map fun fn =>
        if slot'.slot_id = slot.slot_id ∧ fn.1 = fid then xSum S sol slot' fn.1
        else 0).sum).sum = 0 := by
    apply List.sum_eq_zero
    intro x hx
    rcases List.mem_map.mp hx with ⟨slot', hmem, rfl⟩
    exact inner_sum_zero S sol _ fid slot'
      (hnotin slot' (List.mem_append.mpr (Or.inr hmem)))
  rw [hz1, hz2, add_zero, zero_add]
  -- now the single slot: reduce over its needs
  have hmemPos : (fid, need) ∈ slot.posNeeds :=
    List.mem_filter.mpr ⟨hneed, decide_eq_true hpos⟩
  obtain ⟨m1, m2, hmdecomp⟩ := List.append_of_mem hmemPos
  have hflPos : (slot.posNeeds.map Prod.fst).Nodup :=
    List.Nodup.sublist ((List.filter_sublist _).map Prod.fst) hfl
  rw [hmdecomp] at hflPos ⊢
  rw [List.map_append, List.map_cons, List.sum_append, List.sum_cons]
  have hfnot : ∀ fn ∈ m1 ++ m2, fn.1 ≠ fid := by
    intro fn hmem heq
    rw [List.map_append, List.map_cons] at hflPos
    rcases List.mem_append.mp hmem with h1 | h2
    · exact (List.nodup_append.mp hflPos).2.2 (List.mem_map_of_mem _ h1)
        (by simp [heq])
    · have hmm : fn.1 ∈ m2.map Prod.fst := List.mem_map_of_mem _ h2
      rw [heq] at hmm
      exact (List.nodup_cons.mp (List.nodup_append.mp hflPos).2.1).1 hmm
  have hw1 : (m1.map fun fn =>
      if slot.slot_id = slot.slot_id ∧ fn.1 = fid then xSum S sol slot fn.1
      else 0).sum = 0 := by
    apply List.sum_eq_zero
    intro x hx
    rcases List.mem_map.mp hx with ⟨fn, hmem, rfl⟩
    exact if_neg fun hc => hfnot fn (List.mem_append.mpr (Or.inl hmem)) hc.2
  have hw2 : (m2.map fun fn =>
      if slot.slot_id = slot.slot_id ∧ fn.1 = fid then xSum S sol slot fn.1
      else 0).sum = 0 := by
    apply List.sum_eq_zero
    intro x hx
    rcases List.mem_map.mp hx with ⟨fn, hmem, rfl⟩
    exact if_neg fun hc => hfnot fn (List.mem_append.mpr (Or.inr hmem)) hc.2
  rw [hw1, hw2, add_zero, zero_add, if_pos ⟨rfl, rfl⟩]

end AufsichtsplanCP

namespace AufsichtsplanCP

/-- C2: in every solution of the model, for every (slot, floor) pair
with positive need, the number of extracted assignments on the pair plus
the shortfall equals the need, the shortfall lies in `[0, need]`, and
hence the number of assigned teachers never exceeds the need.  Slot ids
and the floor keys of each needs dict are store keys and hence
duplicate-free. -/
theorem C2_per_slot_cap (S : SolverState) (sol : Sol)
    (hsat : SatModel S sol)
    (hids : (S.break_slots.map (·.slot_id)).Nodup)
    (hfl : ∀ slot ∈ S.break_slots, (slot.needs.map Prod.fst).Nodup) :
    ∀ slot ∈ S.break_slots, ∀ fn ∈ slot.needs, fn.2 > 0 →
      ((countOnFloor (extractAssignments S sol) slot.slot_id fn.1 : Nat) : Int)
          + sol.short slot.slot_id fn.1 = fn.2 ∧
      0 ≤ sol.short slot.slot_id fn.1 ∧ sol.short slot.slot_id fn.1 ≤ fn.2 ∧
      ((countOnFloor (extractAssignments S sol) slot.slot_id fn.1 : Nat) : Int)
          ≤ fn.2 := by
  intro slot hslot fn hfn hpos
  obtain ⟨hs0, hs1, hcov⟩ := hsat.1 slot hslot fn hfn hpos
  have hcount : ((countOnFloor (extractAssignments S sol) slot.slot_id fn.1 : Nat) : Int)
      = xSum S sol slot fn.1 :=
    countOnFloor_eq_xSum S sol slot fn.1 fn.2 hids (hfl slot hslot) hslot
      (by simpa using hfn) hpos
  refine ⟨by rw [hcount]; exact hcov, hs0, hs1, ?_⟩
  rw [hcount]
  omega

set_option synthInstance.maxSize 4000 in
set_option maxHeartbeats 1000000 in
/-- Witness for C2 at `stateS1`/`solS1`: the single slot's floor 1 need
of 1 is met by one assignment with zero shortfall. -/
theorem C2_per_slot_cap_witness :
    ((countOnFloor (extractAssignments stateS1 solS1) slotMonB2.slot_id 1 : Nat) : Int)
        + solS1.short slotMonB2.slot_id 1 = 1 ∧
    0 ≤ solS1.short slotMonB2.slot_id 1 ∧ solS1.short slotMonB2.slot_id 1 ≤ 1 ∧
    ((countOnFloor (extractAssignments stateS1 solS1) slotMonB2.slot_id 1 : Nat) : Int)
        ≤ 1 :=
  C2_per_slot_cap stateS1 solS1
    (by decide) (by decide) (by decide)
    slotMonB2 (by decide) (1, 1) (by decide) (by decide)

end AufsichtsplanCP

namespace AufsichtsplanCP

/-- C3: if Phase 1 ends with a status other than OPTIMAL/FEASIBLE
(`p1.sol = none`), `solve` returns a result with an empty assignment
list, a zero load for every teacher, `total_shortfall` equal to the
total demand and an empty shortfall map — nothing is written.  If
Phase 1 succeeds with shortfall `S*`, the pin `total_shortfall = S*` is
part of the Phase 2 and Phase 3 models (`Phase2Model`/`Phase3Model`),
and under oracles that only return solutions of those pinned models the
returned result's total shortfall equals `S*`. -/
theorem C3_phase1_gate (S : SolverState) (p1 p2 p3 : PhaseResult)
    (hne : S.teachers ≠ []) :
    (p1.sol = none →
      (solve S p1 p2 p3).assignments = [] ∧
      (solve S p1 p2 p3).loads = S.teachers.map (fun t => (t.id, 0)) ∧
      (solve S p1 p2 p3).total_shortfall = S.totalNeed ∧
      (solve S p1 p2 p3).shortfalls = [] ∧
      (solve S p1 p2 p3).status = p1.name) ∧
    (∀ s1, p1.sol = some s1 →
      (∀ s2 ∈ p2.sol, Phase2Model S s1.totalShort s2) →
      (∀ s3 ∈ p3.sol, Phase3Model S s1.totalShort (p2.sol.map (·.P)) s3) →
      (solve S p1 p2 p3).total_shortfall = s1.totalShort) := by
  have hempty : S.teachers.isEmpty = false := by
    cases h : S.teachers with
    | nil => exact absurd h hne
    | cons a l => rfl
  constructor
  · intro h1
    unfold solve
    rw [hempty, h1]
    exact ⟨rfl, rfl, rfl, rfl, rfl⟩
  · intro s1 h1 h2 h3
    unfold solve
    rw [hempty, h1]
    cases hp3 : p3.sol with
    | some s3 =>
      have := (h3 s3 (by rw [hp3]; rfl)).1.2
      simpa [extractResult] using this
    | none =>
      cases hp2 : p2.sol with
      | some s2 =>
        have := (h2 s2 (by rw [hp2]; rfl)).2
        simpa [extractResult, hp2] using this
      | none => simp [extractResult, hp2]
  
end AufsichtsplanCP

namespace AufsichtsplanCP

set_option synthInstance.maxSize 4000 in
set_option maxHeartbeats 1000000 in
/-- Witness for C3 at `stateS1`: with a failed Phase 1 the result is the
empty abort result, and with all three phases returning the valid
solution `solS1` (shortfall 0) the returned total shortfall is 0. -/
theorem C3_phase1_gate_witness :
    ((solve stateS1 ⟨none, "UNKNOWN"⟩ ⟨none, "UNKNOWN"⟩ ⟨none, "UNKNOWN"⟩).assignments = [] ∧
     (solve stateS1 ⟨none, "UNKNOWN"⟩ ⟨none, "UNKNOWN"⟩ ⟨none, "UNKNOWN"⟩).loads
        = stateS1.teachers.map (fun t => (t.id, 0)) ∧
     (solve stateS1 ⟨none, "UNKNOWN"⟩ ⟨none, "UNKNOWN"⟩ ⟨none, "UNKNOWN"⟩).total_shortfall
        = stateS1.totalNeed ∧
     (solve stateS1 ⟨none, "UNKNOWN"⟩ ⟨none, "UNKNOWN"⟩ ⟨none, "UNKNOWN"⟩).shortfalls = [] ∧
     (solve stateS1 ⟨none, "UNKNOWN"⟩ ⟨none, "UNKNOWN"⟩ ⟨none, "UNKNOWN"⟩).status = "UNKNOWN") ∧
    (solve stateS1 ⟨some solS1, "OPTIMAL"⟩ ⟨some solS1, "OPTIMAL"⟩
        ⟨some solS1, "OPTIMAL"⟩).total_shortfall = solS1.totalShort :=
  ⟨(C3_phase1_gate stateS1 ⟨none, "UNKNOWN"⟩ ⟨none, "UNKNOWN"⟩ ⟨none, "UNKNOWN"⟩
      (by decide)).1 rfl,
   (C3_phase1_gate stateS1 ⟨some solS1, "OPTIMAL"⟩ ⟨some solS1, "OPTIMAL"⟩
      ⟨some solS1, "OPTIMAL"⟩ (by decide)).2 solS1 rfl
      (by rintro s2 ⟨rfl⟩; exact ⟨by decide, rfl⟩)
      (by rintro s3 ⟨rfl⟩
          exact ⟨⟨by decide, rfl⟩, by rintro p ⟨rfl⟩; rfl⟩)⟩

end AufsichtsplanCP

namespace AufsichtsplanCP

set_option synthInstance.maxSize 4000 in
set_option maxHeartbeats 1000000 in
/-- Counterexample to C4 as stated: with fairness band 0 and
max_extra_duties 0, `solC4` satisfies every model constraint (and is the
only solution, so the solver returns it with status OPTIMAL), yet
teacher 1's final load 0 deviates from its target 2 by 2 > 0: the lower
half of the band is only a penalised slack, not a hard bound. -/
theorem C4_counterexample :
    SatModel stateC4 solC4 ∧
    stateC4.cfg.bandNorm = some 0 ∧
    stateC4.cfg.extraNorm = some 0 ∧
    (solve stateC4 ⟨some solC4, "OPTIMAL"⟩ ⟨some solC4, "OPTIMAL"⟩
        ⟨some solC4, "OPTIMAL"⟩).status = "OPTIMAL" ∧
    (solve stateC4 ⟨some solC4, "OPTIMAL"⟩ ⟨some solC4, "OPTIMAL"⟩
        ⟨some solC4, "OPTIMAL"⟩).loads = [(1, 0)] ∧
    tC4.effTarget = 2 ∧
    ¬ (|(0 : Int) - tC4.effTarget| ≤ 0) := by
  refine ⟨by decide, by decide, by decide, by decide, by decide, by decide, ?_⟩
  decide

/-- C4, amended: when a band `B` is configured and `max_extra_duties`
is 0, every model solution respects the upper band
`load[t] ≤ target[t] + B` (the `band_over` slack is forced to 0), while
the lower band is soft; and in every configuration the result's
`band_violation` field equals the sum of all band_under, band_over and
cap_over slacks. -/
theorem C4_band_upper_and_violation (S : SolverState) (sol : Sol)
    (hsat : SatModel S sol) :
    (∀ B, S.cfg.bandNorm = some B → S.cfg.extraNorm = some 0 →
      ∀ t ∈ S.teachers, sol.load t.id ≤ t.effTarget + B) ∧
    (∀ name bp, (extractResult S sol name bp).band_violation =
      (if S.hasBandTerms then bandTermSum S sol else 0) ∧
      (extractResult S sol name bp).loads =
        S.teachers.map fun t => (t.id, sol.load t.id)) := by
  constructor
  · intro B hB hE t ht
    obtain ⟨_, _, _, _, _, _, _, hband, _, _⟩ := hsat.2.2.2.1 t ht
    have hb := hband B (by simp [hB])
    obtain ⟨_, ⟨hov0, _⟩, _, hup, hcap⟩ := hb
    have hovE : sol.bandOver t.id ≤ 0 := hcap 0 (by simp [hE])
    have : sol.bandOver t.id = 0 := le_antisymm hovE hov0
    omega
  · intro name bp
    refine ⟨?_, rfl⟩
    have := hsat.2.2.2.2.2.2.1.2
    simpa [extractResult] using this

set_option synthInstance.maxSize 4000 in
set_option maxHeartbeats 1000000 in
/-- Witness for the amended C4 at `stateC4`/`solC4`: the upper band
holds (load 0 ≤ target 2 + band 0) and the reported band violation is
the slack sum 2. -/
theorem C4_band_upper_and_violation_witness :
    solC4.load tC4.id ≤ tC4.effTarget + 0 ∧
    (extractResult stateC4 solC4 "OPTIMAL" 0).band_violation =
      (if stateC4.hasBandTerms then bandTermSum stateC4 solC4 else 0) :=
  ⟨(C4_band_upper_and_violation stateC4 solC4 (by decide)).1 0 (by decide)
      (by decide) tC4 (by decide),
   ((C4_band_upper_and_violation stateC4 solC4 (by decide)).2 "OPTIMAL" 0).1⟩

end AufsichtsplanCP

namespace AufsichtsplanCP

theorem bandTermSum_zero (S : SolverState) (sol : Sol)
    (h : S.hasBandTerms = false) : bandTermSum S sol = 0 := by
  unfold SolverState.hasBandTerms at h
  rcases Bool.and_eq_false_iff.mp h with h1 | h2
  · have hb : S.cfg.bandNorm = none := by
      cases hh : S.cfg.bandNorm with
      | none => rfl
      | some b => rw [hh] at h1; simp at h1
    have he : S.cfg.extraNorm = none := by
      cases hh : S.cfg.extraNorm with
      | none => rfl
      | some e => rw [hh] at h1; simp at h1
    apply List.sum_eq_zero
    intro x hx
    rcases List.mem_map.mp hx with ⟨t, _, rfl⟩
    simp [bandTermsOf, hb, he]
  · have : S.teachers = [] := by
      cases hh : S.teachers with
      | nil => rfl
      | cons a l => rw [hh] at h2; simp at h2
    simp [bandTermSum, this]

theorem shortTermSum_zero (S : SolverState) (sol : Sol)
    (h : (S.break_slots.any fun slot => !slot.posNeeds.isEmpty) = false) :
    shortTermSum S sol = 0 := by
  apply List.sum_eq_zero
  intro x hx
  rcases List.mem_map.mp hx with ⟨slot, hmem, rfl⟩
  have := List.any_eq_false.mp h slot hmem
  have hempty : slot.posNeeds = [] := by
    cases hh : slot.posNeeds with
    | nil => rfl
    | cons a l => rw [hh] at this; simp at this
  simp [hempty]

theorem dayExcessSum_zero (S : SolverState) (sol : Sol)
    (h : (S.teachers.any fun t =>
      S.slotDates.any fun d => decide (dayVarsCount S t d ≥ 1)) = false) :
    dayExcessSum S sol = 0 := by
  apply List.sum_eq_zero
  intro x hx
  rcases List.mem_map.mp hx with ⟨t, hmem, rfl⟩
  have ht := Bool.eq_false_iff.mpr (List.any_eq_false.mp h t hmem)
  have : S.slotDates.filter (fun d => decide (dayVarsCount S t d ≥ 1)) = [] := by
    rw [List.filter_eq_nil_iff]
    intro d hd
    have := List.any_eq_false.mp ht d hd
    simpa using this
  simp [this]

/-- Counterexample to C6 as stated: the band-penalty default in
`BreakSupervisionSolver.__init__` is 200_000, not 5_000_000, so with the
default configuration (which has a fairness band, hence an active band
bound) the Phase 3 band weight is 200_000. -/
theorem C6_counterexample :
    ({} : SolverConfig).band_penalty = 200000 ∧
    stateS1.cfg.bandNorm.isSome = true ∧
    stateS1.weightBand = 200000 ∧
    ¬ stateS1.weightBand = 5000000 := by
  refine ⟨rfl, rfl, rfl, ?_⟩
  decide

/-- C6, amended: Phase 3 minimises exactly
`1_000_000·max_dev + 10_000·total_dev + W_day·Σ day_excess +
W_band·Σ(band slacks) + 50_000_000·Σ short`, where `total_dev` weights
`dev_pos` by 1 and `dev_neg` by `max(1, availability_days)`,
`W_day = 500_000` when `max_one_per_day` is configured and 100
otherwise, and `W_band` is the configured band penalty — defaulting to
200_000 — whenever a band or extra-duty bound is active and 0 otherwise;
the band slacks comprise `band_under`, `band_over` and `cap_over`. -/
theorem C6_phase3_objective (S : SolverState) (sol : Sol)
    (hsat : SatModel S sol) :
    phase3Objective S sol =
      1000000 * sol.maxDev +
      10000 * (S.teachers.map fun t =>
        sol.devPos t.id * 1 + sol.devNeg t.id * underWeight t).sum +
      (if S.cfg.max_one_per_day then 500000 else 100) * dayExcessSum S sol +
      (if S.cfg.bandNorm.isSome || S.cfg.extraNorm.isSome then
        S.cfg.bandPenaltyNorm else 0) * bandTermSum S sol +
      50000000 * shortTermSum S sol := by
  have hdev : sol.totalDev = totalDevSum S sol := hsat.2.2.2.2.2.1.2
  have hband : sol.totalBand = (if S.hasBandTerms then bandTermSum S sol else 0) :=
    hsat.2.2.2.2.2.2.1.2
  have hshort : sol.totalShort =
      (if S.break_slots.any fun slot => !slot.posNeeds.isEmpty then
        shortTermSum S sol else 0) := hsat.2.2.2.2.2.2.2.1.2
  have hday : sol.dailyExcessTotal =
      (if S.teachers.any fun t =>
          S.slotDates.any fun d => decide (dayVarsCount S t d ≥ 1) then
        dayExcessSum S sol else 0) := hsat.2.2.2.2.2.2.2.2.2.2
  unfold phase3Objective SolverState.weightDay SolverState.weightBand
  rw [hdev, hband, hshort, hday]
  unfold totalDevSum
  have e1 : (if S.hasBandTerms then bandTermSum S sol else 0) = bandTermSum S sol := by
    cases hh : S.hasBandTerms with
    | true => rfl
    | false => rw [bandTermSum_zero S sol hh]; rfl
  have e2 : (if S.break_slots.any fun slot => !slot.posNeeds.isEmpty then
      shortTermSum S sol else 0) = shortTermSum S sol := by
    cases hh : S.break_slots.any fun slot => !slot.posNeeds.isEmpty with
    | true => rfl
    | false => rw [shortTermSum_zero S sol hh]; rfl
  have e3 : (if S.teachers.any fun t =>
      S.slotDates.any fun d => decide (dayVarsCount S t d ≥ 1) then
      dayExcessSum S sol else 0) = dayExcessSum S sol := by
    cases hh : S.teachers.any fun t =>
        S.slotDates.any fun d => decide (dayVarsCount S t d ≥ 1) with
    | true => rfl
    | false => rw [dayExcessSum_zero S sol hh]; rfl
  rw [e1, e2, e3]
  ring

set_option synthInstance.maxSize 4000 in
set_option maxHeartbeats 1000000 in
/-- Witness for the amended C6 at `stateS1`/`solS1`. -/
theorem C6_phase3_objective_witness :
    phase3Objective stateS1 solS1 =
      1000000 * solS1.maxDev +
      10000 * (stateS1.teachers.map fun t =>
        solS1.devPos t.id * 1 + solS1.devNeg t.id * underWeight t).sum +
      (if stateS1.cfg.max_one_per_day then 500000 else 100) *
        dayExcessSum stateS1 solS1 +
      (if stateS1.cfg.bandNorm.isSome || stateS1.cfg.extraNorm.isSome then
        stateS1.cfg.bandPenaltyNorm else 0) * bandTermSum stateS1 solS1 +
      50000000 * shortTermSum stateS1 solS1 :=
  C6_phase3_objective stateS1 solS1 (by decide)

end AufsichtsplanCP

namespace AufsichtsplanGreedy

theorem foldl_ite_mem {α κ : Type} (key : α → κ) (lt : κ → κ → Bool) :
    ∀ (l : List α) (a : α),
      (l.foldl (fun best x => if lt (key x) (key best) then x else best) a)
        ∈ a :: l := by
  intro l
  induction l with
  | nil => intro a; exact List.mem_singleton.mpr rfl
  | cons x xs ih =>
    intro a
    simp only [List.foldl_cons]
    by_cases h : lt (key x) (key a)
    · rw [if_pos h]
      exact List.mem_cons_of_mem a (ih x)
    · rw [if_neg h]
      rcases List.mem_cons.mp (ih a) with h1 | h2
      · rw [h1]; exact List.mem_cons_self a (x :: xs)
      · exact List.mem_cons_of_mem a (List.mem_cons_of_mem x h2)

theorem argminBy_mem {α κ : Type} (key : α → κ) (lt : κ → κ → Bool)
    (l : List α) (x : α) (h : argminBy key lt l = some x) : x ∈ l := by
  cases l with
  | nil => cases h
  | cons a rest =>
    unfold argminBy at h
    injection h with h
    exact h ▸ foldl_ite_mem key lt rest a

theorem matrixPick_mem (entries : List PickEntry) (key : PickEntry → Key)
    (cls : PickEntry → Nat × Nat) (matrix : List (Nat × Nat)) (e : PickEntry)
    (h : matrixPick entries key cls matrix = some e) : e ∈ entries := by
  induction matrix with
  | nil => cases h
  | cons g rest ih =>
    unfold matrixPick at h
    cases hm : argminBy key keyLt (entries.filter fun x => cls x = g) with
    | some e' =>
      rw [hm] at h
      injection h with h
      exact List.mem_of_mem_filter (h ▸ argminBy_mem _ _ _ _ hm)
    | none =>
      rw [hm] at h
      exact ih h

theorem fbPickBest_mem (asg : Asg) (entries : List (Teacher × Nat))
    (t : Teacher) (h : fbPickBest asg entries = some t) :
    ∃ e ∈ entries, e.1 = t := by
  unfold fbPickBest at h
  rcases Option.map_eq_some'.mp h with ⟨e, he, rfl⟩
  have hmem := argminBy_mem _ _ _ _ he
  by_cases hz : (entries.filter fun e => e.2 = 0).isEmpty
  · rw [if_pos hz] at hmem
    exact ⟨e, hmem, rfl⟩
  · rw [if_neg hz] at hmem
    exact ⟨e, List.mem_of_mem_filter hmem, rfl⟩

theorem fb3PickBest_mem (asg : Asg) (entries : List (Teacher × Nat × Nat × Int))
    (t : Teacher) (h : fb3PickBest asg entries = some t) :
    ∃ e ∈ entries, e.1 = t := by
  unfold fb3PickBest at h
  rcases Option.map_eq_some'.mp h with ⟨e, he, rfl⟩
  have hmem := argminBy_mem _ _ _ _ he
  by_cases hz : (entries.filter fun e => e.2.1 = 0).isEmpty
  · rw [if_pos hz] at hmem
    exact ⟨e, hmem, rfl⟩
  · rw [if_neg hz] at hmem
    exact ⟨e, List.mem_of_mem_filter hmem, rfl⟩

theorem prefCascade_mem {α β : Type} (pref : α → Option Nat) (f : Nat)
    (pick : List α → Option β) (candidates : List α) (x : β)
    (Q : α → β → Prop)
    (hpick : ∀ (l : List α) (y : β), pick l = some y → ∃ e ∈ l, Q e y)
    (h : prefCascade pref f pick candidates = some x) :
    ∃ e ∈ candidates, Q e x := by
  unfold prefCascade at h
  cases h1 : pick (candidates.filter fun e => pref e = some f) with
  | some y =>
    rw [h1] at h
    injection h with h
    obtain ⟨e, he, hq⟩ := hpick _ _ h1
    exact ⟨e, List.mem_of_mem_filter he, h ▸ hq⟩
  | none =>
    rw [h1] at h
    cases h2 : pick (candidates.filter fun e => pref e = none) with
    | some y =>
      rw [h2] at h
      injection h with h
      obtain ⟨e, he, hq⟩ := hpick _ _ h2
      exact ⟨e, List.mem_of_mem_filter he, h ▸ hq⟩
    | none =>
      rw [h2] at h
      obtain ⟨e, he, hq⟩ := hpick _ _ h
      exact ⟨e, List.mem_of_mem_filter he, hq⟩

end AufsichtsplanGreedy

namespace AufsichtsplanGreedy

/-- Counterexample to C7 as stated: two invocations over the same date
range with identical stored teachers, lessons, floors and quotas — the
contexts differ only in the drawn `random_bias`, which scheduler.py
line 114 draws from the global, unseeded `random.random()` — produce
different (slot, teacher) multisets: the run favouring teacher 1's bias
assigns teacher 1, the other assigns teacher 2. -/
theorem C7_counterexample :
    (ctxG biasA).teachers = (ctxG biasB).teachers ∧
    (ctxG biasA).floors = (ctxG biasB).floors ∧
    (ctxG biasA).start_date = (ctxG biasB).start_date ∧
    (ctxG biasA).end_date = (ctxG biasB).end_date ∧
    (ctxG biasA).breaks_per_day = (ctxG biasB).breaks_per_day ∧
    runScheduler (ctxG biasA) = [(⟨0, 1, 1⟩, 1)] ∧
    runScheduler (ctxG biasB) = [(⟨0, 1, 1⟩, 2)] ∧
    runScheduler (ctxG biasA) ≠ runScheduler (ctxG biasB) := by
  refine ⟨rfl, rfl, rfl, rfl, rfl, by decide, by decide, by decide⟩

/-- C7, amended: the greedy scheduler is a pure function of the stored
inputs and the drawn per-teacher `random_bias` values, so two
invocations with equal bias draws produce identical assignment lists;
but the bias is drawn fresh from the unseeded global RNG on every
invocation, so distinct draws may change the result (see the
counterexample). -/
theorem C7_reproducible_given_bias (c : SchedCtx) (slots : List DutySlot)
    (b b' : Nat → Frac) (h : ∀ id, b id = b' id) :
    generateAssignments { c with bias := b } slots
      = generateAssignments { c with bias := b' } slots := by
  have hb : b = b' := funext h
  rw [hb]

/-- Witness for the amended C7: with two pointwise-equal bias draws the
scenario `ctxG` yields the same plan. -/
theorem C7_reproducible_given_bias_witness :
    generateAssignments { ctxG biasA with bias := biasA } (ensureSlots (ctxG biasA))
      = generateAssignments { ctxG biasA with bias := fun id => biasA id }
          (ensureSlots (ctxG biasA)) :=
  C7_reproducible_given_bias (ctxG biasA) (ensureSlots (ctxG biasA)) biasA
    (fun id => biasA id) (fun _ => rfl)

end AufsichtsplanGreedy

namespace AufsichtsplanGreedy

theorem allCandidates_sound (c : SchedCtx) (dbv mem : Asg) (d b : Nat)
    (p : Teacher × Int) (hp : p ∈ allCandidates c dbv mem d b) :
    p ∈ c.eligiblePairs ∧
    p.1.isAvailableOnWeekday (d % 7) = true ∧
    p.1.isAvailableForSupervision (d % 7) b = true := by
  unfold allCandidates at hp
  obtain ⟨hmem, hguard⟩ := List.mem_filter.mp hp
  simp only [Bool.and_eq_true] at hguard
  exact ⟨hmem, hguard.1.1.2, hguard.1.2⟩

theorem buildEntries_sound (c : SchedCtx) (dbv mem : Asg) (d b f : Nat)
    (e : PickEntry) (he : e ∈ buildEntries c dbv mem d b f) :
    PickSound c dbv d b e.t := by
  unfold buildEntries at he
  obtain ⟨p, hp, hf⟩ := List.mem_filterMap.mp he
  by_cases h1 : (existingBreaks dbv p.1.id d).any fun eb => natDist eb b = 1
  · rw [if_pos h1] at hf; cases hf
  · rw [if_neg h1] at hf
    by_cases h2 : (existingBreaks dbv p.1.id d).length ≥ 2
    · rw [if_pos h2] at hf; cases hf
    · rw [if_neg h2] at hf
      injection hf with hf
      obtain ⟨hel, hav, hsu⟩ := allCandidates_sound c dbv mem d b p hp
      have hte : e.t = p.1 := by rw [← hf]
      refine ⟨⟨p, hel, hte.symm⟩, hte ▸ hav, hte ▸ hsu, ?_⟩
      intro eb hmem heq
      have := List.any_eq_false.mp (Bool.eq_false_iff.mpr h1) eb (hte ▸ hmem)
      exact this (by simpa using heq)

theorem pickTeacher_sound (c : SchedCtx) (dbv mem : Asg) (d b f : Nat)
    (t : Teacher) (h : pickTeacher c dbv mem d b f = some t) :
    PickSound c dbv d b t := by
  unfold pickTeacher at h
  obtain ⟨e, he, hte⟩ := Option.map_eq_some'.mp h
  have hmem := matrixPick_mem _ _ _ _ _ he
  have hent : e ∈ buildEntries c dbv mem d b f := by
    by_cases hz : ((buildEntries c dbv mem d b f).filter
        fun e => e.dutiesToday = 0).isEmpty
    · rw [if_pos hz] at hmem
      rcases List.mem_append.mp hmem with h1 | h2
      · exact List.mem_of_mem_filter h1
      · exact List.mem_of_mem_filter h2
    · rw [if_neg hz] at hmem
      exact List.mem_of_mem_filter hmem
  exact hte ▸ buildEntries_sound c dbv mem d b f e hent

end AufsichtsplanGreedy

namespace AufsichtsplanGreedy

theorem fallback1_sound (c : SchedCtx) (dbv mem : Asg) (d b f : Nat)
    (t : Teacher) (h : pickTeacherFallback1 c dbv mem d b f = some t) :
    PickSound c dbv d b t := by
  unfold pickTeacherFallback1 at h
  obtain ⟨e, he, h1⟩ := prefCascade_mem _ _ _ _ _ (fun e t => e.1 = t)
    (fun l y hy => fbPickBest_mem mem l y hy) h
  obtain ⟨p, hp, hf⟩ := List.mem_filterMap.mp he
  by_cases c1 : (alreadyIds dbv d b).contains p.1.id
  · rw [if_pos c1] at hf; cases hf
  · rw [if_neg c1] at hf
    by_cases c2 : p.2 ≤ (assignedCount mem p.1.id : Int)
    · rw [if_pos (decide_eq_true c2)] at hf; cases hf
    · rw [if_neg (by simpa using c2)] at hf
      by_cases c3 : p.1.isAvailableOnWeekday (d % 7)
      · rw [c3, Bool.not_true, if_neg (by simp)] at hf
        by_cases c4 : p.1.isAvailableForSupervision (d % 7) b
        · rw [c4, Bool.not_true, if_neg (by simp)] at hf
          by_cases c5 : (existingBreaks dbv p.1.id d).length ≥ 2
          · rw [if_pos c5] at hf; cases hf
          · rw [if_neg c5] at hf
            by_cases c6 : (existingBreaks dbv p.1.id d).any
                fun eb => natDist eb b = 1
            · rw [if_pos c6] at hf; cases hf
            · rw [if_neg c6] at hf
              injection hf with hf
              have hpt : p.1 = t := by rw [← h1, ← hf]
              subst hpt
              refine ⟨⟨p, hp, rfl⟩, c3, c4, ?_⟩
              intro eb hmem heq
              exact List.any_eq_false.mp (Bool.eq_false_iff.mpr c6) eb hmem
                (by simpa using heq)
        · rw [Bool.eq_false_iff.mpr c4] at hf
          simp at hf
      · rw [Bool.eq_false_iff.mpr c3] at hf
        simp at hf

theorem fallback2_sound (c : SchedCtx) (dbv mem : Asg) (d b f : Nat)
    (t : Teacher) (h : pickTeacherFallback2 c dbv mem d b f = some t) :
    PickSound c dbv d b t := by
  unfold pickTeacherFallback2 at h
  obtain ⟨e, he, h1⟩ := prefCascade_mem _ _ _ _ _ (fun e t => e.1 = t)
    (fun l y hy => fbPickBest_mem mem l y hy) h
  obtain ⟨p, hp, hf⟩ := List.mem_filterMap.mp he
  by_cases c1 : (alreadyIds dbv d b).contains p.1.id
  · rw [if_pos c1] at hf; cases hf
  · rw [if_neg c1] at hf
    by_cases c2 : p.2 ≤ (assignedCount mem p.1.id : Int)
    · rw [if_pos (decide_eq_true c2)] at hf; cases hf
    · rw [if_neg (by simpa using c2)] at hf
      by_cases c3 : p.1.isAvailableOnWeekday (d % 7)
      · rw [c3, Bool.not_true, if_neg (by simp)] at hf
        by_cases c4 : p.1.isAvailableForSupervision (d % 7) b
        · rw [c4, Bool.not_true, if_neg (by simp)] at hf
          by_cases c6 : (existingBreaks dbv p.1.id d).any
              fun eb => natDist eb b = 1
          · rw [if_pos c6] at hf; cases hf
          · rw [if_neg c6] at hf
            injection hf with hf
            have hpt : p.1 = t := by rw [← h1, ← hf]
            subst hpt
            refine ⟨⟨p, hp, rfl⟩, c3, c4, ?_⟩
            intro eb hmem heq
            exact List.any_eq_false.mp (Bool.eq_false_iff.mpr c6) eb hmem
              (by simpa using heq)
        · rw [Bool.eq_false_iff.mpr c4] at hf
          simp at hf
      · rw [Bool.eq_false_iff.mpr c3] at hf
        simp at hf

theorem fallback3_sound (c : SchedCtx) (dbv mem : Asg) (d b f : Nat)
    (t : Teacher) (h : pickTeacherFallback3 c dbv mem d b f = some t) :
    PickSound c dbv d b t := by
  unfold pickTeacherFallback3 at h
  obtain ⟨e, he, h1⟩ := prefCascade_mem _ _ _ _ _ (fun e t => e.1 = t)
    (fun l y hy => fb3PickBest_mem mem l y hy) h
  obtain ⟨p, hp, hf⟩ := List.mem_filterMap.mp he
  by_cases c1 : (alreadyIds dbv d b).contains p.1.id
  · rw [if_pos c1] at hf; cases hf
  · rw [if_neg c1] at hf
    by_cases c3 : p.1.isAvailableOnWeekday (d % 7)
    · rw [c3, Bool.not_true, if_neg (by simp)] at hf
      by_cases c4 : p.1.isAvailableForSupervision (d % 7) b
      · rw [c4, Bool.not_true, if_neg (by simp)] at hf
        by_cases c6 : (existingBreaks dbv p.1.id d).any
            fun eb => natDist eb b = 1
        · rw [if_pos c6] at hf; cases hf
        · rw [if_neg c6] at hf
          injection hf with hf
          have hpt : p.1 = t := by rw [← h1, ← hf]
          subst hpt
          refine ⟨⟨p, hp, rfl⟩, c3, c4, ?_⟩
          intro eb hmem heq
          exact List.any_eq_false.mp (Bool.eq_false_iff.mpr c6) eb hmem
            (by simpa using heq)
      · rw [Bool.eq_false_iff.mpr c4] at hf
        simp at hf
    · rw [Bool.eq_false_iff.mpr c3] at hf
      simp at hf

end AufsichtsplanGreedy

namespace AufsichtsplanGreedy

theorem foldl_inv {α σ : Type} (P : σ → Prop) (step : σ → α → σ)
    (hstep : ∀ s x, P s → P (step s x)) :
    ∀ (l : List α) (s : σ), P s → P (l.foldl step s) := by
  intro l
  induction l with
  | nil => intro s hs; exact hs
  | cons x xs ih => intro s hs; exact ih (step s x) (hstep s x hs)

theorem natDist_comm (a b : Nat) : natDist a b = natDist b a := by
  unfold natDist
  rw [Nat.max_comm, Nat.min_comm]

/-- Every row a `fillSlot` loop leaves in the pending list either was
pending already or is a `PickSound` placement for this very slot,
picked against the flushed rows `dbv`. -/
theorem fillSlot_mem (c : SchedCtx) (slot : DutySlot) :
    ∀ (n : Nat) (dbv pending : Asg) (a : DutySlot × Nat),
      a ∈ (fillSlot c slot n dbv pending).1 →
      a ∈ pending ∨ (a.1 = slot ∧ ∃ t : Teacher, a.2 = t.id ∧
        PickSound c dbv slot.date slot.break_index t) := by
  intro n
  induction n with
  | zero => intro dbv pending a ha; exact Or.inl ha
  | succ m ih =>
    intro dbv pending a ha
    unfold fillSlot at ha
    cases hp : pickTeacher c dbv (dbv ++ pending) slot.date slot.break_index
        slot.floor_id with
    | none => rw [hp] at ha; exact Or.inl ha
    | some t =>
      rw [hp] at ha
      rcases ih dbv (pending ++ [(slot, t.id)]) a ha with hmem | hslot
      · rcases List.mem_append.mp hmem with h1 | h2
        · exact Or.inl h1
        · have ha' : a = (slot, t.id) := List.mem_singleton.mp h2
          subst ha'
          exact Or.inr ⟨rfl, t, rfl,
            pickTeacher_sound c dbv (dbv ++ pending) slot.date slot.break_index
              slot.floor_id t hp⟩
      · exact Or.inr hslot

/-- One main-loop step flushes the slot's pending inserts onto the
visible state. -/
theorem mainStep_shape (c : SchedCtx) (st : Asg × List DutySlot)
    (slot : DutySlot) :
    ∃ n, (mainStep c st slot).1 = st.1 ++ (fillSlot c slot n st.1 []).1 := by
  unfold mainStep
  dsimp only
  split
  next pending heq =>
    exact ⟨(max 0 (floorRequired c slot.floor_id -
      ((st.1.filter fun a => decide (a.1 = slot)).length : Int))).toNat,
      by rw [heq]⟩
  next pending heq =>
    exact ⟨(max 0 (floorRequired c slot.floor_id -
      ((st.1.filter fun a => decide (a.1 = slot)).length : Int))).toNat,
      by rw [heq]⟩

/-- Appending rows that all belong to one slot and were each checked
against the flushed state preserves the consecutive-break invariant:
old-new conflicts are excluded by the check, and new-new pairs share the
slot's break index. -/
theorem NoConsec_append_slot (db pending : Asg) (slot : DutySlot)
    (hinv : NoConsec db)
    (hpend : ∀ a ∈ pending, a.1 = slot ∧ ∃ t : Teacher, a.2 = t.id ∧
      ∀ eb ∈ existingBreaks db t.id slot.date,
        natDist eb slot.break_index ≠ 1) :
    NoConsec (db ++ pending) := by
  intro a1 h1 a2 h2 ht hd
  rcases List.mem_append.mp h1 with h1o | h1n
  · rcases List.mem_append.mp h2 with h2o | h2n
    · exact hinv a1 h1o a2 h2o ht hd
    · obtain ⟨hslot2, t, hid2, hsafe⟩ := hpend a2 h2n
      have hmem : a1.1.break_index ∈ existingBreaks db t.id slot.date := by
        unfold existingBreaks
        refine List.mem_map.mpr ⟨a1, List.mem_filter.mpr ⟨h1o, ?_⟩, rfl⟩
        simp [ht, hid2, hd, hslot2]
      rw [show a2.1.break_index = slot.break_index by rw [hslot2]]
      exact hsafe _ hmem
  · obtain ⟨hslot1, t, hid1, hsafe⟩ := hpend a1 h1n
    rcases List.mem_append.mp h2 with h2o | h2n
    · have hmem : a2.1.break_index ∈ existingBreaks db t.id slot.date := by
        unfold existingBreaks
        refine List.mem_map.mpr ⟨a2, List.mem_filter.mpr ⟨h2o, ?_⟩, rfl⟩
        simp [← ht, hid1, ← hd, hslot1]
      intro hcontra
      rw [show a1.1.break_index = slot.break_index by rw [hslot1],
        natDist_comm] at hcontra
      exact hsafe _ hmem hcontra
    · obtain ⟨hslot2, _, _, _⟩ := hpend a2 h2n
      rw [show a1.1.break_index = slot.break_index by rw [hslot1],
        show a2.1.break_index = slot.break_index by rw [hslot2]]
      simp [natDist]

/-- The main chronological pass preserves the consecutive-break
invariant: a flush runs after every slot, and the rows pending within a
slot all carry that slot's break index. -/
theorem mainPass_noConsec (c : SchedCtx) (slots : List DutySlot) :
    NoConsec (mainPass c slots).1 := by
  unfold mainPass
  refine foldl_inv (fun st : Asg × List DutySlot => NoConsec st.1)
    (mainStep c) ?_ (sortBy slotLt slots) ([], []) ?_
  · intro st slot hst
    obtain ⟨n, heq⟩ := mainStep_shape c st slot
    rw [heq]
    refine NoConsec_append_slot st.1 _ slot hst ?_
    intro a ha
    rcases fillSlot_mem c slot n st.1 [] a ha with h0 | hg
    · cases h0
    · obtain ⟨hslot, t, hid, hsound⟩ := hg
      exact ⟨hslot, t, hid, hsound.2.2.2⟩
  · intro a1 h1
    cases h1

/-- Every row a fallback pass adds is a `PickSound` placement checked
against the pass-start flushed state `st.1` only — same-pass pending
inserts are invisible to the pick's session queries. -/
theorem fallbackPass_mem (c : SchedCtx)
    (pick : SchedCtx → Asg → Asg → Nat → Nat → Nat → Option Teacher)
    (hsound : ∀ dbv mem d b f t, pick c dbv mem d b f = some t →
      PickSound c dbv d b t)
    (st : Asg × List DutySlot) :
    ∀ a ∈ (fallbackPass pick c st).1, a ∈ st.1 ∨
      ∃ t : Teacher, a.2 = t.id ∧
        PickSound c st.1 a.1.date a.1.break_index t := by
  unfold fallbackPass
  dsimp only
  intro a ha
  rcases List.mem_append.mp ha with h1 | h2
  · exact Or.inl h1
  · refine Or.inr (foldl_inv
      (fun acc : Asg × List DutySlot => ∀ x ∈ acc.1,
        ∃ t : Teacher, x.2 = t.id ∧
          PickSound c st.1 x.1.date x.1.break_index t)
      (fun acc slot =>
        match pick c st.1 (st.1 ++ acc.1) slot.date slot.break_index
            slot.floor_id with
        | some t => (acc.1 ++ [(slot, t.id)], acc.2)
        | none => (acc.1, acc.2 ++ [slot]))
      ?_ st.2 ([], []) ?_ a h2)
    · intro acc slot hacc x
      dsimp only
      cases hp : pick c st.1 (st.1 ++ acc.1) slot.date slot.break_index
          slot.floor_id with
      | none => exact fun hx => hacc x hx
      | some t =>
        intro hx
        rcases List.mem_append.mp hx with hxo | hxn
        · exact hacc x hxo
        · have hx' : x = (slot, t.id) := List.mem_singleton.mp hxn
          subst hx'
          exact ⟨t, rfl, hsound _ _ _ _ _ _ hp⟩
    · intro x hx
      cases hx

/-- Every row of the final plan names an eligible teacher who is
available on the row's weekday and has an adjacent lesson for its
break (the availability facts of `PickSound` do not depend on the
visible assignment state). -/
theorem generate_assignedSound (c : SchedCtx) (slots : List DutySlot) :
    AssignedSound c (generateAssignments c slots) := by
  have hrow : ∀ (dbv : Asg) (a : DutySlot × Nat) (t : Teacher), a.2 = t.id →
      PickSound c dbv a.1.date a.1.break_index t →
      ∃ p ∈ c.eligiblePairs, p.1.id = a.2 ∧
        p.1.isAvailableOnWeekday (a.1.date % 7) = true ∧
        p.1.isAvailableForSupervision (a.1.date % 7) a.1.break_index = true := by
    intro dbv a t hid hsound
    obtain ⟨⟨p, hp, hpt⟩, hav, hsu, -⟩ := hsound
    exact ⟨p, hp, by rw [hpt, hid], by rw [hpt]; exact hav,
      by rw [hpt]; exact hsu⟩
  have hmainSound : AssignedSound c (mainPass c slots).1 := by
    unfold mainPass
    refine foldl_inv (fun st : Asg × List DutySlot => AssignedSound c st.1)
      (mainStep c) ?_ (sortBy slotLt slots) ([], []) ?_
    · intro st slot hst
      obtain ⟨n, heq⟩ := mainStep_shape c st slot
      rw [heq]
      intro a ha
      rcases List.mem_append.mp ha with ho | hn
      · exact hst a ho
      · rcases fillSlot_mem c slot n st.1 [] a hn with h0 | hg
        · cases h0
        · obtain ⟨hslot, t, hid, hsound⟩ := hg
          exact hrow st.1 a t hid (by rw [hslot]; exact hsound)
    · intro a ha
      cases ha
  have hfb : ∀ (pick : SchedCtx → Asg → Asg → Nat → Nat → Nat → Option Teacher),
      (∀ dbv mem d b f t, pick c dbv mem d b f = some t →
        PickSound c dbv d b t) →
      ∀ st : Asg × List DutySlot, AssignedSound c st.1 →
        AssignedSound c (fallbackPass pick c st).1 := by
    intro pick hsound st hst a ha
    rcases fallbackPass_mem c pick hsound st a ha with ho | hg
    · exact hst a ho
    · obtain ⟨t, hid, hps⟩ := hg
      exact hrow st.1 a t hid hps
  unfold generateAssignments
  apply hfb pickTeacherFallback3
    (fun dbv mem d b f t => fallback3_sound c dbv mem d b f t)
  apply hfb pickTeacherFallback2
    (fun dbv mem d b f t => fallback2_sound c dbv mem d b f t)
  apply hfb pickTeacherFallback1
    (fun dbv mem d b f t => fallback1_sound c dbv mem d b f t)
  exact hmainSound

end AufsichtsplanGreedy

namespace AufsichtsplanGreedy

theorem testBit_foldl_attendance (w : Nat) :
    ∀ (ls : List Lesson) (acc : Nat),
      (ls.foldl (fun acc l =>
        if l.weekday ≤ 4 then acc ||| (1 <<< l.weekday) else acc) acc).testBit w
      = (acc.testBit w || ls.any fun l => l.weekday ≤ 4 && l.weekday == w) := by
  intro ls
  induction ls with
  | nil => intro acc; simp
  | cons l ls ih =>
    intro acc
    rw [List.foldl_cons, ih, List.any_cons]
    by_cases hw : l.weekday ≤ 4
    · rw [if_pos hw]
      rw [Nat.testBit_or]
      have h1 : (1 <<< l.weekday).testBit w = (l.weekday == w) := by
        rw [Nat.shiftLeft_eq, one_mul, Nat.testBit_two_pow]
        rfl
      rw [h1]
      simp [hw, Bool.or_assoc]
    · rw [if_neg hw]
      simp [hw]

theorem testBit_computed (t : Teacher) (w : Nat) :
    t.computedAttendanceBits.testBit w
      = t.lessons.any fun l => l.weekday ≤ 4 && l.weekday == w := by
  unfold Teacher.computedAttendanceBits
  rw [testBit_foldl_attendance w t.lessons 0, Nat.zero_testBit, Bool.false_or]

theorem computed_attendance_cases (t : Teacher)
    (h : t.attendance_days = none ∨ t.attendance_days = some 0 ∨
      t.attendance_days = some 31) :
    t.getActualAttendanceDays
      = (if t.lessons.isEmpty then 0 else t.computedAttendanceBits) := by
  unfold Teacher.getActualAttendanceDays
  rcases h with h | h | h <;> rw [h] <;> norm_num

end AufsichtsplanGreedy

namespace AufsichtsplanGreedy

theorem eligiblePairs_mem_teachers (c : SchedCtx) (p : Teacher × Int)
    (hp : p ∈ c.eligiblePairs) : p.1 ∈ c.teachers := by
  unfold SchedCtx.eligiblePairs at hp
  obtain ⟨t0, ht0, hf⟩ := List.mem_filterMap.mp hp
  by_cases hpos : t0.quota_target.getD 0 > 0
  · rw [if_pos hpos] at hf
    injection hf with hf
    rw [← hf]
    exact List.mem_of_mem_filter ht0
  · rw [if_neg hpos] at hf
    cases hf

/-- C10: the stored `attendance_days` bitmask is honoured only when it
is neither NULL, 0 nor 31; for those three values availability on a
weekday holds iff the teacher has a lesson on it.  In particular a
teacher with the full-week default bitmask 31 but no lessons is
available on no weekday, and the greedy scheduler (all stages) never
assigns such a teacher. -/
theorem C10_attendance_only_honoured_when_custom :
    (∀ (t : Teacher) (w : Nat),
      (t.attendance_days = none ∨ t.attendance_days = some 0 ∨
        t.attendance_days = some 31) →
      (t.isAvailableOnWeekday w = true ↔
        w ≤ 4 ∧ ∃ l ∈ t.lessons, l.weekday = w)) ∧
    (∀ t : Teacher, t.attendance_days = some 31 → t.lessons = [] →
      ∀ w, t.isAvailableOnWeekday w = false) ∧
    (∀ (c : SchedCtx) (slots : List DutySlot) (t : Teacher),
      (c.teachers.map Teacher.id).Nodup → t ∈ c.teachers →
      t.attendance_days = some 31 → t.lessons = [] →
      ∀ a ∈ generateAssignments c slots, a.2 ≠ t.id) := by
  have key : ∀ (t : Teacher) (w : Nat),
      (t.attendance_days = none ∨ t.attendance_days = some 0 ∨
        t.attendance_days = some 31) →
      (t.isAvailableOnWeekday w = true ↔
        w ≤ 4 ∧ ∃ l ∈ t.lessons, l.weekday = w) := by
    intro t w h
    unfold Teacher.isAvailableOnWeekday
    by_cases hw : w > 4
    · rw [if_pos hw]
      constructor
      · intro hx; cases hx
      · rintro ⟨hle, -⟩; omega
    · rw [if_neg hw]
      rw [computed_attendance_cases t h]
      by_cases hles : t.lessons.isEmpty
      · rw [if_pos hles, Nat.zero_testBit]
        constructor
        · intro hx; cases hx
        · rintro ⟨-, l, hl, -⟩
          rw [List.isEmpty_iff.mp hles] at hl
          cases hl
      · rw [if_neg hles, testBit_computed]
        rw [List.any_eq_true]
        constructor
        · rintro ⟨l, hl, hcond⟩
          simp only [Bool.and_eq_true, beq_iff_eq, decide_eq_true_eq] at hcond
          exact ⟨by omega, l, hl, hcond.2⟩
        · rintro ⟨hle, l, hl, hlw⟩
          refine ⟨l, hl, ?_⟩
          simp only [Bool.and_eq_true, beq_iff_eq, decide_eq_true_eq]
          exact ⟨by omega, hlw⟩
  have key2 : ∀ t : Teacher, t.attendance_days = some 31 → t.lessons = [] →
      ∀ w, t.isAvailableOnWeekday w = false := by
    intro t hatt hles w
    have := key t w (Or.inr (Or.inr hatt))
    cases hx : t.isAvailableOnWeekday w
    · rfl
    · obtain ⟨-, l, hl, -⟩ := this.mp hx
      rw [hles] at hl
      cases hl
  refine ⟨key, key2, ?_⟩
  intro c slots t hnodup ht hatt hles a ha hid
  obtain ⟨p, hp, hpid, hav, -⟩ := generate_assignedSound c slots a ha
  have hpmem := eligiblePairs_mem_teachers c p hp
  have hpt : p.1 = t :=
    List.inj_on_of_nodup_map hnodup hpmem ht (by rw [hpid, hid])
  rw [hpt] at hav
  rw [key2 t hatt hles] at hav
  cases hav

/-- Witness for C10: the idle teacher (id 3, bitmask 31, no lessons) in
`ctxIdle` is available on no weekday and receives no assignment. -/
theorem C10_attendance_only_honoured_when_custom_witness :
    (tgIdle.isAvailableOnWeekday 0 = false) ∧
    ((⟨0, 1, 1⟩, 1) : DutySlot × Nat).2 ≠ tgIdle.id :=
  ⟨C10_attendance_only_honoured_when_custom.2.1 tgIdle rfl rfl 0,
   C10_attendance_only_honoured_when_custom.2.2 ctxIdle (ensureSlots ctxIdle)
     tgIdle (by decide) (by decide) rfl rfl (⟨0, 1, 1⟩, 1) (by decide)⟩

end AufsichtsplanGreedy

namespace AufsichtsplanGreedy

/-- Counterexample to C5 as stated: in `ctx5` the nominal targets sum
to 1 while the total demand is 2, and teacher 1 has availability (one
weekday), yet the target list the scheduler consults is the unchanged
nominal quota (summing to 1 < 2): no deficit redistribution happens
anywhere in `generate_assignments`, and the produced plan covers only
one of the two required heads. -/
theorem C5_counterexample :
    (ctx5.eligiblePairs.map (·.2)).sum = 1 ∧
    greedyTotalNeed ctx5 = 2 ∧
    availableDays tg1 = 1 ∧
    (ctx5.eligiblePairs.map (·.2)).sum < greedyTotalNeed ctx5 ∧
    runScheduler ctx5 = [(⟨0, 1, 1⟩, 1)] := by
  refine ⟨by decide, by decide, by decide, by decide, by decide⟩

/-- C5, amended: no target rebalancing exists in the scheduler — the
per-teacher targets used by every pick stage are exactly the stored
nominal quota values: `(t, target)` is in the working list iff `t` is a
stored, non-exempt teacher and `target` is its (positive) quota value,
unchanged. -/
theorem C5_targets_are_nominal (c : SchedCtx) (t : Teacher) (tg : Int) :
    (t, tg) ∈ c.eligiblePairs ↔
      t ∈ c.teachers ∧ t.exempt = false ∧ tg = t.quota_target.getD 0 ∧
      tg > 0 := by
  unfold SchedCtx.eligiblePairs
  constructor
  · intro hmem
    obtain ⟨t0, ht0, hf⟩ := List.mem_filterMap.mp hmem
    by_cases hpos : t0.quota_target.getD 0 > 0
    · rw [if_pos hpos] at hf
      injection hf with h1
      rw [Prod.mk.injEq] at h1
      obtain ⟨ha, hb⟩ := h1
      subst ha
      obtain ⟨hmem', hex⟩ := List.mem_filter.mp ht0
      exact ⟨hmem', by simpa using hex, hb.symm, hb ▸ hpos⟩
    · rw [if_neg hpos] at hf
      cases hf
  · rintro ⟨hmem, hex, htg, hpos⟩
    refine List.mem_filterMap.mpr ⟨t, List.mem_filter.mpr ⟨hmem, by simp [hex]⟩, ?_⟩
    rw [if_pos (htg ▸ hpos), ← htg]

/-- Witness for the amended C5: teacher 1 appears in `ctx5`'s working
list with exactly its nominal quota target 1. -/
theorem C5_targets_are_nominal_witness :
    (tg1, 1) ∈ ctx5.eligiblePairs :=
  (C5_targets_are_nominal ctx5 tg1 1).mpr ⟨by decide, rfl, rfl, by decide⟩

/-- Counterexample to C8 as stated: with a transient lock failure on the
first attempt only (every later attempt would succeed),
`clear_assignments` as written fails — it makes a single attempt with no
retry loop — whereas the claimed behaviour ("retries up to 5 times,
fails only if all 5 attempts fail") would succeed and perform the
delete. -/
theorem C8_counterexample :
    clearAssignments (fun k => k == 1) store0 0 10 = none ∧
    ([1, 2, 3, 4, 5].all fun k => k == 1) = false ∧
    clearAssignmentsSpec (fun k => k == 1) store0 0 10
      = some ⟨[⟨1, 5⟩, ⟨2, 20⟩], [⟨2, 7⟩]⟩ := by
  refine ⟨by decide, by decide, by decide⟩

/-- C8, amended: `clear_assignments` deletes exactly the assignments
whose duty slot's date lies in `[start, end]`, in a single attempt: a
transient store-lock failure on that attempt propagates immediately
(there is no retry loop and no backoff). -/
theorem C8_single_attempt_exact_delete (locked : Nat → Bool) (st : Store)
    (s e : Nat) :
    (locked 1 = true → clearAssignments locked st s e = none) ∧
    (locked 1 = false →
      clearAssignments locked st s e = some (deleteRange st s e)) ∧
    (∀ a : StoredAssignment,
      a ∈ (deleteRange st s e).assignments ↔
        a ∈ st.assignments ∧
        ¬ ∃ sl ∈ st.duty_slots, sl.id = a.duty_slot_id ∧
          s ≤ sl.date ∧ sl.date ≤ e) := by
  refine ⟨?_, ?_, ?_⟩
  · intro h
    unfold clearAssignments
    rw [h]
    rfl
  · intro h
    unfold clearAssignments
    rw [h]
    rfl
  · intro a
    unfold deleteRange slotIdsInRange
    simp only [List.mem_filter, Bool.not_eq_true', List.contains_eq_any_beq,
      List.any_eq_false, List.mem_map, List.mem_filter, Bool.and_eq_true,
      decide_eq_true_eq, beq_eq_false_iff_ne, ne_eq]
    constructor
    · rintro ⟨hmem, hno⟩
      refine ⟨hmem, ?_⟩
      rintro ⟨sl, hsl, hid, h1, h2⟩
      exact hno a.duty_slot_id ⟨sl, ⟨hsl, h1, h2⟩, hid⟩ (beq_self_eq_true _)
    · rintro ⟨hmem, hno⟩
      refine ⟨hmem, ?_⟩
      rintro x ⟨sl, ⟨hsl, h1, h2⟩, hid⟩ hax
      refine hno ⟨sl, hsl, ?_, h1, h2⟩
      rw [hid]
      exact (beq_iff_eq.mp hax).symm

/-- Witness for the amended C8 at `store0`: with no lock the delete
succeeds and removes exactly the in-range assignment (slot 1, day 5),
keeping the out-of-range one (slot 2, day 20). -/
theorem C8_single_attempt_exact_delete_witness :
    clearAssignments (fun _ => false) store0 0 10
        = some (deleteRange store0 0 10) ∧
    ((⟨2, 7⟩ : StoredAssignment) ∈ (deleteRange store0 0 10).assignments ↔
      (⟨2, 7⟩ : StoredAssignment) ∈ store0.assignments ∧
      ¬ ∃ sl ∈ store0.duty_slots, sl.id = 2 ∧ 0 ≤ sl.date ∧ sl.date ≤ 10) :=
  ⟨(C8_single_attempt_exact_delete (fun _ => false) store0 0 10).2.1 rfl,
   (C8_single_attempt_exact_delete (fun _ => false) store0 0 10).2.2 ⟨2, 7⟩⟩

end AufsichtsplanGreedy

namespace AufsichtsplanGreedy

/-- C9 fails on the code: in `ctxC9` the teacher (target 1, lessons
Monday hour 2, Tuesday hours 3 and 4) is placed on Monday break 2 by
the main pass, and then fallback 3 — whose consecutive-break check is a
session query on an `autoflush=False` session flushed only after the
whole pass — assigns the same teacher to Tuesday break 2 and, unable to
see that still-pending insert, also to the adjacent Tuesday break 3.
The main pass alone still satisfies the invariant, and every fallback
placement is conflict-free against the rows flushed at its pass start
(`fallbackPass_mem`), but the final plan violates the claimed
invariant. -/
theorem C9_consecutive_break_bug :
    runScheduler ctxC9
      = [(⟨0, 2, 1⟩, 1), (⟨1, 2, 1⟩, 1), (⟨1, 3, 1⟩, 1)] ∧
    NoConsec (mainPass ctxC9 (ensureSlots ctxC9)).1 ∧
    (⟨1, 2, 1⟩, 1) ∈ runScheduler ctxC9 ∧
    (⟨1, 3, 1⟩, 1) ∈ runScheduler ctxC9 ∧
    natDist 2 3 = 1 ∧
    ¬ NoConsec (runScheduler ctxC9) := by
  refine ⟨by decide, by decide, by decide, by decide, by decide, by decide⟩

end AufsichtsplanGreedy
